import Mathlib

/-!
Verification development for the decision-tree analysis core
(`backend/app/services/tree_analysis_service.py`).

The embedding models:
* the node record (`TreeNode`) with the fields the core reads,
* `is_choice_node` / `is_uncertain_event`,
* the memoized recursive evaluator `calculate_node_ev` (fuel-indexed:
  `none` models a recursion that would exceed the call stack),
* `validate_tree_structure` (issue and warning messages are modelled as
  structured tags carrying the data interpolated into the Python strings),
* `get_optimal_path` (path-step actions likewise modelled structurally).

Real-valued fields are modelled as rationals.  Python's `x or 0` idiom on
floats maps to `Option.getD 0` (only `None` and `0.0` are falsy).
-/

namespace DecisionTree

/-- A tree node as read by the analysis service: `id` and `parent_node_id`
are UUID primary keys (modelled as `Nat`; a present UUID is never falsy),
`node_type` is the string tag, and the numeric attributes are optional. -/
structure TreeNode where
  id : Nat
  parent_node_id : Option Nat
  node_type : String
  name : String
  probability : Option ℚ
  cost : Option ℚ
  utility : Option ℚ
deriving DecidableEq, Repr

/-- `TreeAnalysisService.is_choice_node`: a chance node whose parent exists
and is a decision node. -/
def is_choice_node (node : TreeNode) (all_nodes : List TreeNode) : Bool :=
  if node.node_type ≠ "chance" ∨ node.parent_node_id.isNone then false
  else
    match all_nodes.find? (fun n => some n.id == node.parent_node_id) with
    | none => false
    | some parent => parent.node_type == "decision"

/-- `TreeAnalysisService.is_uncertain_event`: a chance node that is not a
choice node. -/
def is_uncertain_event (node : TreeNode) (all_nodes : List TreeNode) : Bool :=
  node.node_type == "chance" && !is_choice_node node all_nodes

/-- The `children_map` entry for a node: all nodes whose parent id equals
this node's id, in stored order. -/
def childrenOf (all_nodes : List TreeNode) (node : TreeNode) : List TreeNode :=
  all_nodes.filter (fun child => child.parent_node_id == some node.id)

/-- Association-list lookup, as Python's `dict[key]`. -/
def getKey {α : Type} (m : List (Nat × α)) (k : Nat) : Option α :=
  (m.find? (fun p => p.1 == k)).map (fun p => p.2)

/-- Association-list assignment, as Python's `dict[key] = v` (overwrites in
place, else appends; dicts preserve insertion order). -/
def setKey {α : Type} (m : List (Nat × α)) (k : Nat) (v : α) : List (Nat × α) :=
  if m.any (fun p => p.1 == k) then
    m.map (fun p => if p.1 == k then (k, v) else p)
  else m ++ [(k, v)]

/-- The transient evaluation state: the `expected_values` memo map and the
`calculation_breakdown` map (modelled by its keys and type tags). -/
structure EvalState where
  evs : List (Nat × ℚ)
  bd : List (Nat × String)
deriving DecidableEq, Repr

/-- Record a finished node: breakdown entry then memo entry, as the source
writes `calculation_breakdown[node_id]` and then `expected_values[node_id]`. -/
def pushResult (st : EvalState) (nodeId : Nat) (ev : ℚ) (tag : String) : EvalState :=
  { evs := setKey st.evs nodeId ev, bd := setKey st.bd nodeId tag }

/-- The contribution of one child of a choice node: an uncertain-event child
contributes `probability × ev`, any other child contributes `ev` directly. -/
def contribution (all_nodes : List TreeNode) (child : TreeNode) (childEv : ℚ) : ℚ :=
  if is_uncertain_event child all_nodes then child.probability.getD 0 * childEv
  else childEv

/-- The choice-node formula in specification form: each child paired with
its computed value contributes `probability × ev` when it is an
uncertain-event node and `ev` otherwise. -/
def weightedSum (all_nodes : List TreeNode) (cs : List TreeNode) (vs : List ℚ) : ℚ :=
  ((cs.zip vs).map (fun p => contribution all_nodes p.1 p.2)).sum

/-- A list comprehension `[f(child) for child in cs]` threading the memo
state left to right; `f` is the evaluator one recursion level deeper. -/
def evalList (f : TreeNode → EvalState → Option (ℚ × EvalState)) :
    List TreeNode → EvalState → Option (List ℚ × EvalState)
  | [], st => some ([], st)
  | c :: rest, st =>
    match f c st with
    | none => none
    | some (v, st1) =>
      match evalList f rest st1 with
      | none => none
      | some (vs, st2) => some (v :: vs, st2)

/-- The choice-node loop: accumulates `weighted_sum` over the children,
threading the memo state; `f` is the evaluator one recursion level deeper. -/
def choiceList (all_nodes : List TreeNode)
    (f : TreeNode → EvalState → Option (ℚ × EvalState)) :
    List TreeNode → EvalState → ℚ → Option (ℚ × EvalState)
  | [], st, acc => some (acc, st)
  | c :: rest, st, acc =>
    match f c st with
    | none => none
    | some (v, st1) =>
      choiceList all_nodes f rest st1 (acc + contribution all_nodes c v)

/-- `calculate_node_ev` from `calculate_expected_value`.  `fuel` bounds the
recursion depth (one unit per nested call); `none` models the unbounded
Python recursion exceeding the stack. -/
def calcNodeEV (all_nodes : List TreeNode) : Nat → TreeNode → EvalState →
    Option (ℚ × EvalState)
  | 0, _, _ => none
  | fuel + 1, node, st =>
    match getKey st.evs node.id with
    | some v => some (v, st)
    | none =>
      let children := childrenOf all_nodes node
      let cost := node.cost.getD 0
      if node.node_type == "terminal" then
        let ev := node.utility.getD 0 - cost
        some (ev, pushResult st node.id ev "terminal")
      else if node.node_type == "decision" then
        match children with
        | [] =>
          let ev := -cost
          some (ev, pushResult st node.id ev "decision")
        | c :: rest =>
          match calcNodeEV all_nodes fuel c st with
          | none => none
          | some (v, st1) =>
            match evalList (calcNodeEV all_nodes fuel) rest st1 with
            | none => none
            | some (vs, st2) =>
              let ev := vs.foldl max v - cost
              some (ev, pushResult st2 node.id ev "decision")
      else if node.node_type == "chance" then
        let is_choice := is_choice_node node all_nodes
        let is_uncertain := is_uncertain_event node all_nodes
        match children with
        | [] =>
          let ev := -cost
          some (ev, pushResult st node.id ev "chance")
        | c :: rest =>
          if is_choice then
            match choiceList all_nodes (calcNodeEV all_nodes fuel) (c :: rest) st 0 with
            | none => none
            | some (weighted_sum, st2) =>
              let ev := weighted_sum - cost
              some (ev, pushResult st2 node.id ev "chance_choice")
          else if is_uncertain then
            match rest with
            | [] =>
              match calcNodeEV all_nodes fuel c st with
              | none => none
              | some (v, st1) =>
                let ev := v - cost
                some (ev, pushResult st1 node.id ev "chance_uncertain")
            | _ :: _ =>
              match calcNodeEV all_nodes fuel c st with
              | none => none
              | some (v, st1) =>
                match evalList (calcNodeEV all_nodes fuel) rest st1 with
                | none => none
                | some (vs, st2) =>
                  let ev := (v :: vs).sum / (v :: vs).length - cost
                  some (ev, pushResult st2 node.id ev "chance_uncertain")
          else
            -- fallback for unclassified chance nodes (dead for "chance":
            -- is_uncertain is the negation of is_choice there)
            match calcNodeEV all_nodes fuel c st with
            | none => none
            | some (v, st1) =>
              match evalList (calcNodeEV all_nodes fuel) rest st1 with
              | none => none
              | some (vs, st2) =>
                let ev := (v :: vs).sum / (v :: vs).length - cost
                some (ev, pushResult st2 node.id ev "chance_fallback")
      else
        let ev := -cost
        some (ev, pushResult st node.id ev "unknown")

/-! ## Structural validator -/

/-- The issue messages of `validate_tree_structure`, as structured tags
carrying the data the source interpolates into each string. -/
inductive Issue where
  | noNodes
  | noRoot
  | terminalMissingUtility (name : String)
  | terminalHasProbability (name : String)
  | choiceNoChildren (name : String)
  | uncertainMissingProbability (name : String)
  | uncertainInvalidProbability (name : String) (p : ℚ)
  | uncertainNoChildren (name : String)
  | groupMissingProbability (childName parentName : String)
  | groupInvalidProbability (childName : String) (p : ℚ)
  | probabilitySum (parentName : String) (total : ℚ)
  | invalidParentReference (name : String)
deriving DecidableEq, Repr

/-- The warning messages of `validate_tree_structure`, as structured tags. -/
inductive Warning where
  | multipleRoots (count : Nat)
  | terminalHasChildren (name : String)
  | choiceHasProbability (name : String)
  | choiceHasUtility (name : String)
  | uncertainHasUtility (name : String)
  | decisionNoChildren (name : String)
  | decisionHasProbability (name : String)
  | decisionHasUtility (name : String)
  | negativeCost (name : String) (cost : ℚ)
deriving DecidableEq, Repr

/-- The loop over `uncertain_children` in the probability-sum block:
returns the running `total_probability`, the `missing_probabilities`
count, and the issues it appends, in source order.  (The source sums
left to right; summing head plus rest is the same rational.) -/
def groupScan (parentName : String) : List TreeNode → ℚ × Nat × List Issue
  | [] => (0, 0, [])
  | child :: rest =>
    let r := groupScan parentName rest
    match child.probability with
    | none =>
      (r.1, r.2.1 + 1, Issue.groupMissingProbability child.name parentName :: r.2.2)
    | some p =>
      (p + r.1, r.2.1,
        (if ¬(0 ≤ p ∧ p ≤ 1) then [Issue.groupInvalidProbability child.name p] else [])
          ++ r.2.2)

/-- The probability-sum block (runs only when the node itself is an
uncertain event with more than one child). -/
def groupIssues (all_nodes : List TreeNode) (node : TreeNode) : List Issue :=
  let children := childrenOf all_nodes node
  if is_uncertain_event node all_nodes && children.length > 1 then
    let uncertain_children := children.filter (fun c => is_uncertain_event c all_nodes)
    if uncertain_children.length > 1 then
      let scan := groupScan node.name uncertain_children
      scan.2.2 ++
        (if scan.2.1 = 0 ∧ |scan.1 - 1| > 1 / 1000 then
          [Issue.probabilitySum node.name scan.1]
        else [])
    else []
  else []

/-- The issues contributed by one iteration of the per-node validation
loop, in source order. -/
def nodeIssues (all_nodes : List TreeNode) (node : TreeNode) : List Issue :=
  let children := childrenOf all_nodes node
  if node.node_type == "terminal" then
    (if node.utility.isNone then [Issue.terminalMissingUtility node.name] else []) ++
    (if node.probability.isSome then [Issue.terminalHasProbability node.name] else [])
  else if node.node_type == "chance" then
    let is_choice := is_choice_node node all_nodes
    let is_uncertain := is_uncertain_event node all_nodes
    (if is_choice then
      (if children.isEmpty then [Issue.choiceNoChildren node.name] else [])
    else if is_uncertain then
      (match node.probability with
       | none => [Issue.uncertainMissingProbability node.name]
       | some p =>
         if ¬(0 ≤ p ∧ p ≤ 1) then [Issue.uncertainInvalidProbability node.name p]
         else []) ++
      (if children.isEmpty then [Issue.uncertainNoChildren node.name] else [])
    else []) ++
    groupIssues all_nodes node
  else []

/-- The warnings contributed by one iteration of the per-node validation
loop, in source order (the negative-cost check runs for every node type,
after the type-specific checks). -/
def nodeWarnings (all_nodes : List TreeNode) (node : TreeNode) : List Warning :=
  let children := childrenOf all_nodes node
  (if node.node_type == "terminal" then
    (if !children.isEmpty then [Warning.terminalHasChildren node.name] else [])
  else if node.node_type == "chance" then
    let is_choice := is_choice_node node all_nodes
    let is_uncertain := is_uncertain_event node all_nodes
    if is_choice then
      (if node.probability.isSome then [Warning.choiceHasProbability node.name] else []) ++
      (if node.utility.isSome then [Warning.choiceHasUtility node.name] else [])
    else if is_uncertain then
      (if node.utility.isSome then [Warning.uncertainHasUtility node.name] else [])
    else []
  else if node.node_type == "decision" then
    (if children.isEmpty then [Warning.decisionNoChildren node.name] else []) ++
    (if node.probability.isSome then [Warning.decisionHasProbability node.name] else []) ++
    (if node.utility.isSome then [Warning.decisionHasUtility node.name] else [])
  else []) ++
  (match node.cost with
   | some c => if c < 0 then [Warning.negativeCost node.name c] else []
   | none => [])

/-- The "orphaned node" pass: a set parent id that matches no node id. -/
def orphanIssues (all_nodes : List TreeNode) : List Issue :=
  (all_nodes.filter (fun node =>
    node.parent_node_id.isSome &&
      !(all_nodes.any (fun n => some n.id == node.parent_node_id)))).map
    (fun node => Issue.invalidParentReference node.name)

/-- The structured result of `validate_tree_structure`. -/
structure ValidationResult where
  valid : Bool
  issues : List Issue
  warnings : List Warning
  node_count : Nat
  root_count : Nat
deriving DecidableEq, Repr

/-- `TreeAnalysisService.validate_tree_structure`. -/
def validate_tree_structure (nodes : List TreeNode) : ValidationResult :=
  if nodes.isEmpty then
    { valid := false, issues := [Issue.noNodes], warnings := [],
      node_count := 0, root_count := 0 }
  else
    let root_nodes := nodes.filter (fun n => n.parent_node_id.isNone)
    let rootIssues := if root_nodes.length = 0 then [Issue.noRoot] else []
    let rootWarnings :=
      if root_nodes.length > 1 then [Warning.multipleRoots root_nodes.length] else []
    let issues := rootIssues ++ nodes.flatMap (nodeIssues nodes) ++ orphanIssues nodes
    let warnings := rootWarnings ++ nodes.flatMap (nodeWarnings nodes)
    { valid := issues.isEmpty, issues := issues, warnings := warnings,
      node_count := nodes.length, root_count := root_nodes.length }

/-! ## Expected-value evaluator, top level -/

/-- The dictionary returned by `calculate_expected_value`: either an error
record (carrying `validation_errors` when present) or the success record. -/
inductive CalcResult where
  | error (message : String) (validation_errors : Option (List Issue))
  | ok (root_expected_value : ℚ) (node_expected_values : List (Nat × ℚ))
      (calculation_breakdown : List (Nat × String)) (root_node_id : Nat)
deriving DecidableEq, Repr

/-- `TreeAnalysisService.calculate_expected_value`, recursion bounded by
`fuel`; `none` models the Python recursion exceeding the stack. -/
def calculate_expected_value_fuel (fuel : Nat) (nodes : List TreeNode) :
    Option CalcResult :=
  if nodes.isEmpty then some (CalcResult.error "Tree has no nodes" none)
  else
    let validation := validate_tree_structure nodes
    if !validation.valid then
      some (CalcResult.error "Tree validation failed" (some validation.issues))
    else
      match nodes.filter (fun n => n.parent_node_id.isNone) with
      | [] => some (CalcResult.error "No root node found" none)
      | root_node :: _ =>
        match calcNodeEV nodes fuel root_node ⟨[], []⟩ with
        | none => none
        | some (root_ev, st) =>
          some (CalcResult.ok root_ev st.evs st.bd root_node.id)

/-- `calculate_expected_value` with fuel covering the maximal possible
recursion depth (one nesting level per distinct node). -/
def calculate_expected_value (nodes : List TreeNode) : Option CalcResult :=
  calculate_expected_value_fuel (nodes.length + 1) nodes

/-! ## Optimal-path extractor -/

/-- The information content of one `path` entry of `get_optimal_path`
(free-text `action` strings modelled structurally; an outcome line keeps
the child's raw probability, which the source renders as a percentage). -/
inductive StepContent where
  | nodeInfo (node_name : String) (node_type : String) (expected_value : ℚ)
  | choose (childName : String) (expected_value : ℚ)
  | choiceOutcomesHeader
  | uncertainOutcomesHeader
  | outcomeLine (childName : String) (probability : Option ℚ) (expected_value : ℚ)
  | bestContinues (childName : String)
deriving DecidableEq, Repr

/-- One `path` entry: its 1-based `step` index, its `depth`, and its content. -/
structure Step where
  step : Nat
  depth : Nat
  content : StepContent
deriving DecidableEq, Repr

/-- Python's `max(items, key=k)` over a nonempty list: the first element
achieving the maximal key (replacement only on strictly greater key). -/
def pyMaxBy (key : TreeNode → ℚ) (c : TreeNode) (cs : List TreeNode) : TreeNode :=
  cs.foldl (fun best x => if key x > key best then x else best) c

/-- Append one entry to `path` (the `step` field is `len(path) + 1`). -/
def appendStep (path : List Step) (depth : Nat) (content : StepContent) : List Step :=
  path ++ [{ step := path.length + 1, depth := depth, content := content }]

/-- `build_path` from `get_optimal_path`, recursion bounded by `fuel`. -/
def build_path (all_nodes : List TreeNode) (evs : List (Nat × ℚ)) :
    Nat → TreeNode → Nat → List Step → Option (List Step)
  | 0, _, _, _ => none
  | fuel + 1, node, depth, path =>
    let path := appendStep path depth
      (StepContent.nodeInfo node.name node.node_type ((getKey evs node.id).getD 0))
    let children := childrenOf all_nodes node
    let key := fun child => (getKey evs child.id).getD 0
    if node.node_type == "decision" then
      match children with
      | [] => some path
      | c :: rest =>
        let best_child := pyMaxBy key c rest
        let path := appendStep path (depth + 1)
          (StepContent.choose best_child.name (key best_child))
        build_path all_nodes evs fuel best_child (depth + 2) path
    else if node.node_type == "chance" then
      match children with
      | [] => some path
      | c :: rest =>
        let header :=
          if is_choice_node node all_nodes then StepContent.choiceOutcomesHeader
          else StepContent.uncertainOutcomesHeader
        let path := appendStep path (depth + 1) header
        let path := (c :: rest).foldl
          (fun p child =>
            appendStep p (depth + 2)
              (StepContent.outcomeLine child.name child.probability (key child))) path
        let best_child := pyMaxBy key c rest
        if best_child.node_type ≠ "terminal" then
          let path := appendStep path (depth + 1)
            (StepContent.bestContinues best_child.name)
          build_path all_nodes evs fuel best_child (depth + 2) path
        else some path
    else some path

/-- The dictionary returned by `get_optimal_path`: on any evaluator error it
propagates only the error message. -/
inductive PathResult where
  | error (message : String)
  | ok (optimal_path : List Step) (root_expected_value : ℚ)
deriving DecidableEq, Repr

/-- `TreeAnalysisService.get_optimal_path`. -/
def get_optimal_path (nodes : List TreeNode) : Option PathResult :=
  match calculate_expected_value nodes with
  | none => none
  | some (CalcResult.error message _) => some (PathResult.error message)
  | some (CalcResult.ok root_ev evs _ _) =>
    match nodes.filter (fun n => n.parent_node_id.isNone) with
    | [] => some (PathResult.error "No root node found")
    | root :: _ =>
      match build_path nodes evs (nodes.length + 1) root 0 [] with
      | none => none
      | some path => some (PathResult.ok path root_ev)

/-! ## Concrete snapshots for the testable scenarios -/

/-- Node constructor shorthand: id, parent id, type, name, probability,
cost, utility. -/
def mkNode (id : Nat) (parent : Option Nat) (ty nm : String)
    (pr c u : Option ℚ) : TreeNode :=
  { id := id, parent_node_id := parent, node_type := ty, name := nm,
    probability := pr, cost := c, utility := u }

/-- Scenario A: one terminal root, utility 100, cost 10. -/
def treeA : List TreeNode :=
  [mkNode 0 none "terminal" "Outcome" none (some 10) (some 100)]

/-- Scenario B: decision root with two terminal children (utility 50 and
utility 80). -/
def treeB : List TreeNode :=
  [mkNode 0 none "decision" "Decision" none (some 0) none,
   mkNode 1 (some 0) "terminal" "Option A" none (some 0) (some 50),
   mkNode 2 (some 0) "terminal" "Option B" none (some 0) (some 80)]

/-- Scenario C exactly as stated: a chance node as root (no probability, no
utility) with two uncertain-event children (probabilities 0.4 and 0.6), each
leading to one terminal (utilities 100 and 0), all costs 0. -/
def treeC : List TreeNode :=
  [mkNode 0 none "chance" "Root" none (some 0) none,
   mkNode 1 (some 0) "chance" "U1" (some (2/5)) (some 0) none,
   mkNode 2 (some 0) "chance" "U2" (some (3/5)) (some 0) none,
   mkNode 3 (some 1) "terminal" "T1" none (some 0) (some 100),
   mkNode 4 (some 2) "terminal" "T2" none (some 0) (some 0)]

/-- Scenario C amended: the same chance node placed under a decision root,
which is what makes the code classify it as a choice node. -/
def treeCfixed : List TreeNode :=
  [mkNode 9 none "decision" "Decide" none (some 0) none,
   mkNode 0 (some 9) "chance" "Root" none (some 0) none,
   mkNode 1 (some 0) "chance" "U1" (some (2/5)) (some 0) none,
   mkNode 2 (some 0) "chance" "U2" (some (3/5)) (some 0) none,
   mkNode 3 (some 1) "terminal" "T1" none (some 0) (some 100),
   mkNode 4 (some 2) "terminal" "T2" none (some 0) (some 0)]

/-- A choice node (child of a decision root) with two uncertain-event
children whose probabilities sum to 0.6: the sum check does not run because
the parent of the group is not itself an uncertain event. -/
def treeSumSkipped : List TreeNode :=
  [mkNode 0 none "decision" "D" none (some 0) none,
   mkNode 1 (some 0) "chance" "C" none (some 0) none,
   mkNode 2 (some 1) "chance" "U1" (some (3/10)) (some 0) none,
   mkNode 3 (some 1) "chance" "U2" (some (3/10)) (some 0) none,
   mkNode 4 (some 2) "terminal" "T1" none (some 0) (some 10),
   mkNode 5 (some 3) "terminal" "T2" none (some 0) (some 20)]

/-- Scenario D: uncertain-event siblings with probabilities 0.3 and 0.5 and
a third sibling missing its probability, under an uncertain-event root. -/
def treeD : List TreeNode :=
  [mkNode 0 none "chance" "R" (some (1/2)) (some 0) none,
   mkNode 1 (some 0) "chance" "U1" (some (3/10)) (some 0) none,
   mkNode 2 (some 0) "chance" "U2" (some (1/2)) (some 0) none,
   mkNode 3 (some 0) "chance" "U3" none (some 0) none,
   mkNode 4 (some 1) "terminal" "T1" none (some 0) (some 10),
   mkNode 5 (some 2) "terminal" "T2" none (some 0) (some 20),
   mkNode 6 (some 3) "terminal" "T3" none (some 0) (some 30)]

/-- A decision root carrying a probability and a utility (attribute-rule
violations), with a well-formed terminal child. -/
def treeDecisionAttrs : List TreeNode :=
  [mkNode 0 none "decision" "D" (some (1/2)) (some 0) (some 7),
   mkNode 1 (some 0) "terminal" "T" none (some 0) (some 10)]

/-- An invalid snapshot: its only node is a terminal missing its utility. -/
def treeInvalid : List TreeNode :=
  [mkNode 0 none "terminal" "T" none (some 0) none]

/-- A snapshot whose parent relation contains a two-node cycle (A ↔ B); the
cycle is unreachable from the terminal root and validation accepts it. -/
def treeCycle : List TreeNode :=
  [mkNode 0 none "terminal" "T" none (some 0) (some 5),
   mkNode 1 (some 2) "chance" "A" (some (1/2)) (some 0) none,
   mkNode 2 (some 1) "chance" "B" (some (1/2)) (some 0) none]

/-- A snapshot with two roots; the second root has a child of its own. -/
def treeTwoRoots : List TreeNode :=
  [mkNode 0 none "terminal" "R1" none (some 0) (some 5),
   mkNode 1 none "terminal" "R2" none (some 0) (some 7),
   mkNode 2 (some 1) "terminal" "K" none (some 0) (some 3)]

/-! ## Ancestry and reachability (for termination and key-coverage facts) -/

/-- Unique node ids: the data-model invariant (ids are primary keys). -/
def NodupIds (nodes : List TreeNode) : Prop :=
  (nodes.map TreeNode.id).Nodup

/-- `Chain all_nodes anc n`: `anc` lists the strict ancestors of `n` from a
root down — the first element (or `n` itself when `anc` is empty) has no
parent and each subsequent element is a child of the previous one. -/
inductive Chain (all_nodes : List TreeNode) : List TreeNode → TreeNode → Prop where
  | root {n : TreeNode} : n ∈ all_nodes → n.parent_node_id = none →
      Chain all_nodes [] n
  | step {anc : List TreeNode} {p c : TreeNode} : Chain all_nodes anc p →
      c ∈ all_nodes → c.parent_node_id = some p.id →
      Chain all_nodes (anc ++ [p]) c

/-- Reachability along child edges (the edges the evaluator follows). -/
inductive Reach (all_nodes : List TreeNode) : TreeNode → TreeNode → Prop where
  | refl (n : TreeNode) : Reach all_nodes n n
  | step {n c m : TreeNode} : c ∈ all_nodes → c.parent_node_id = some n.id →
      Reach all_nodes c m → Reach all_nodes n m

/-- Membership of a key in either transient map of the evaluation state. -/
def keyIn (k : Nat) (st : EvalState) : Prop :=
  k ∈ st.evs.map Prod.fst ∨ k ∈ st.bd.map Prod.fst

/-! ## Helper lemmas -/

@[simp] theorem mkNode_id (i : Nat) (p : Option Nat) (ty nm : String)
    (pr c u : Option ℚ) : (mkNode i p ty nm pr c u).id = i := rfl

@[simp] theorem mkNode_parent (i : Nat) (p : Option Nat) (ty nm : String)
    (pr c u : Option ℚ) : (mkNode i p ty nm pr c u).parent_node_id = p := rfl

@[simp] theorem mkNode_type (i : Nat) (p : Option Nat) (ty nm : String)
    (pr c u : Option ℚ) : (mkNode i p ty nm pr c u).node_type = ty := rfl

@[simp] theorem mkNode_name (i : Nat) (p : Option Nat) (ty nm : String)
    (pr c u : Option ℚ) : (mkNode i p ty nm pr c u).name = nm := rfl

@[simp] theorem mkNode_probability (i : Nat) (p : Option Nat) (ty nm : String)
    (pr c u : Option ℚ) : (mkNode i p ty nm pr c u).probability = pr := rfl

@[simp] theorem mkNode_cost (i : Nat) (p : Option Nat) (ty nm : String)
    (pr c u : Option ℚ) : (mkNode i p ty nm pr c u).cost = c := rfl

@[simp] theorem mkNode_utility (i : Nat) (p : Option Nat) (ty nm : String)
    (pr c u : Option ℚ) : (mkNode i p ty nm pr c u).utility = u := rfl

/-- Python's `max` over a nonempty list yields an element of the list. -/
theorem foldl_max_mem (v : ℚ) (vs : List ℚ) : vs.foldl max v ∈ v :: vs := by
  induction vs generalizing v with
  | nil => simp
  | cons x xs ih =>
    rw [List.foldl_cons]
    rcases List.mem_cons.mp (ih (max v x)) with h1 | h1
    · rcases max_choice v x with hm | hm
      · rw [h1, hm]; exact List.mem_cons_self _ _
      · rw [h1, hm]; exact List.mem_cons_of_mem _ (List.mem_cons_self _ _)
    · exact List.mem_cons_of_mem _ (List.mem_cons_of_mem _ h1)

/-- Python's `max` over a nonempty list bounds every element. -/
theorem le_foldl_max (v : ℚ) (vs : List ℚ) : ∀ u ∈ v :: vs, u ≤ vs.foldl max v := by
  induction vs generalizing v with
  | nil => intro u hu; rw [List.mem_singleton] at hu; simp [hu]
  | cons x xs ih =>
    intro u hu
    rw [List.foldl_cons]
    rcases List.mem_cons.mp hu with h | h
    · rw [h]
      exact le_trans (le_max_left v x) (ih (max v x) _ (List.mem_cons_self _ _))
    · rcases List.mem_cons.mp h with h2 | h2
      · rw [h2]
        exact le_trans (le_max_right v x) (ih (max v x) _ (List.mem_cons_self _ _))
      · exact ih (max v x) u (List.mem_cons_of_mem _ h2)

/-- The accumulating choice-node loop computes exactly the specification
sum of contributions over the child values. -/
theorem choiceList_eq_evalList (all_nodes : List TreeNode)
    (f : TreeNode → EvalState → Option (ℚ × EvalState)) (cs : List TreeNode) :
    ∀ st acc, choiceList all_nodes f cs st acc =
      (evalList f cs st).map (fun r => (acc + weightedSum all_nodes cs r.1, r.2)) := by
  induction cs with
  | nil => intro st acc; simp [choiceList, evalList, weightedSum]
  | cons c rest ih =>
    intro st acc
    cases hf : f c st with
    | none => simp [choiceList, evalList, hf]
    | some p =>
      obtain ⟨v, st1⟩ := p
      simp only [choiceList, evalList, hf]
      rw [ih st1 (acc + contribution all_nodes c v)]
      cases he : evalList f rest st1 with
      | none => rfl
      | some q =>
        obtain ⟨vs, st2⟩ := q
        simp [weightedSum, add_assoc]

/-- A member of `childrenOf all_nodes node` is a node of the snapshot whose
parent id is `node.id`. -/
theorem mem_of_childrenOf {all_nodes : List TreeNode} {node c : TreeNode}
    (h : c ∈ childrenOf all_nodes node) :
    c ∈ all_nodes ∧ c.parent_node_id = some node.id := by
  have h2 := List.mem_filter.mp h
  exact ⟨h2.1, by simpa using h2.2⟩

/-- With unique ids, two member nodes with the same id are the same node. -/
theorem eq_of_mem_of_id_eq {all_nodes : List TreeNode} (hnodup : NodupIds all_nodes)
    {a b : TreeNode} (ha : a ∈ all_nodes) (hb : b ∈ all_nodes)
    (h : a.id = b.id) : a = b :=
  List.inj_on_of_nodup_map hnodup ha hb h

/-- Every element of an ancestor chain (endpoint included) is a node of the
snapshot. -/
theorem chain_mem {all_nodes : List TreeNode} {anc : List TreeNode} {n : TreeNode}
    (h : Chain all_nodes anc n) : ∀ a ∈ anc ++ [n], a ∈ all_nodes := by
  induction h with
  | root hmem _ =>
    intro a ha
    rw [List.nil_append, List.mem_singleton] at ha
    exact ha ▸ hmem
  | step hch hmem hpar ih =>
    intro a ha
    rcases List.mem_append.mp ha with ha | ha
    · exact ih a ha
    · rw [List.mem_singleton] at ha
      exact ha ▸ hmem

/-- With unique ids a node has a unique ancestor chain. -/
theorem chain_unique {all_nodes : List TreeNode} (hnodup : NodupIds all_nodes) :
    ∀ {anc anc2 : List TreeNode} {n : TreeNode},
      Chain all_nodes anc n → Chain all_nodes anc2 n → anc = anc2 := by
  intro anc anc2 n h1
  induction h1 generalizing anc2 with
  | root hmem hpar =>
    intro h2
    cases h2 with
    | root _ _ => rfl
    | step _ _ hpar2 => rw [hpar] at hpar2; exact Option.noConfusion hpar2
  | step hch hmem hpar ih =>
    intro h2
    cases h2 with
    | root _ hpar2 => rw [hpar2] at hpar; exact Option.noConfusion hpar
    | step hch2 hmem2 hpar2 =>
      rename_i p _ anc' p'
      rw [hpar] at hpar2
      injection hpar2 with hid
      have hpmem : p ∈ all_nodes := chain_mem hch p (List.mem_append_right _ (List.mem_singleton.mpr rfl))
      have hpmem2 : p' ∈ all_nodes := chain_mem hch2 p' (List.mem_append_right _ (List.mem_singleton.mpr rfl))
      have hpe : p = p' := eq_of_mem_of_id_eq hnodup hpmem hpmem2 hid
      subst hpe
      rw [ih hch2]

/-- Every decomposition point of a chain-with-endpoint list is itself the
endpoint of the corresponding prefix chain. -/
theorem chain_prefix {all_nodes : List TreeNode} :
    ∀ {anc : List TreeNode} {n : TreeNode}, Chain all_nodes anc n →
      ∀ {l1 l2 : List TreeNode} {a : TreeNode}, anc ++ [n] = l1 ++ a :: l2 →
        Chain all_nodes l1 a := by
  intro anc n h
  induction h with
  | root hmem hpar =>
    intro l1 l2 a heq
    rw [List.nil_append] at heq
    cases l1 with
    | nil =>
      rw [List.nil_append] at heq
      injection heq with h1 _
      exact h1 ▸ Chain.root hmem hpar
    | cons x l1' =>
      rw [List.cons_append] at heq
      injection heq with _ h2
      exact absurd h2.symm (List.append_ne_nil_of_right_ne_nil _ (List.cons_ne_nil _ _))
  | step hch hmem hpar ih =>
    rename_i anc' p c
    intro l1 l2 a heq
    rcases l2.eq_nil_or_concat with rfl | ⟨l2', z, rfl⟩
    · have heq2 : (anc' ++ [p]) ++ [c] = l1 ++ [a] := by simpa using heq
      obtain ⟨hl, hc⟩ := List.append_inj' heq2 rfl
      injection hc with hc1 _
      exact hl ▸ hc1 ▸ Chain.step hch hmem hpar
    · have heq2 : (anc' ++ [p]) ++ [c] = (l1 ++ a :: l2') ++ [z] := by
        simpa [List.append_assoc] using heq
      obtain ⟨hl, -⟩ := List.append_inj' heq2 rfl
      exact ih hl

/-- With unique ids the nodes along a chain are pairwise distinct (their
ids are). -/
theorem chain_ids_nodup {all_nodes : List TreeNode} (hnodup : NodupIds all_nodes) :
    ∀ {anc : List TreeNode} {n : TreeNode}, Chain all_nodes anc n →
      ((anc ++ [n]).map TreeNode.id).Nodup := by
  intro anc n h
  induction h with
  | root _ _ => simp
  | step hch hmem hpar ih =>
    rename_i anc' p c
    rw [List.map_append, List.map_singleton]
    refine ih.append (List.nodup_singleton _) ?_
    intro x hx hx2
    rw [List.mem_singleton] at hx2
    subst hx2
    obtain ⟨a, ha, haid⟩ := List.mem_map.mp hx
    have hamem : a ∈ all_nodes := chain_mem hch a ha
    have hceq : a = c := eq_of_mem_of_id_eq hnodup hamem
      (chain_mem (Chain.step hch hmem hpar) c (by simp)) haid
    subst hceq
    obtain ⟨l1, l2, hdec⟩ := List.append_of_mem ha
    have hpre : Chain all_nodes l1 a := chain_prefix hch hdec
    have hfull : Chain all_nodes (anc' ++ [p]) a := Chain.step hch hmem hpar
    have heq : l1 = anc' ++ [p] := chain_unique hnodup hpre hfull
    have hlen1 : (anc' ++ [p]).length = l1.length + (l2.length + 1) := by
      rw [hdec]
      simp
    have hlen2 : l1.length = (anc' ++ [p]).length := by rw [heq]
    omega

/-- With unique ids a chain cannot be longer than the snapshot. -/
theorem chain_length_le {all_nodes : List TreeNode} (hnodup : NodupIds all_nodes)
    {anc : List TreeNode} {n : TreeNode} (h : Chain all_nodes anc n) :
    anc.length + 1 ≤ all_nodes.length := by
  have hsub : ((anc ++ [n]).map TreeNode.id) ⊆ all_nodes.map TreeNode.id := by
    intro x hx
    obtain ⟨a, ha, haid⟩ := List.mem_map.mp hx
    exact haid ▸ List.mem_map_of_mem _ (chain_mem h a ha)
  have hlen := (List.subperm_of_subset (chain_ids_nodup hnodup h) hsub).length_le
  simpa using hlen

/-- `pyMaxBy` returns the first element achieving the maximal key: every
element strictly before it has a strictly smaller key, every element after
it has a key no larger. -/
theorem pyMaxBy_first_argmax (key : TreeNode → ℚ) (c : TreeNode) (cs : List TreeNode) :
    ∃ l1 l2, c :: cs = l1 ++ pyMaxBy key c cs :: l2 ∧
      (∀ x ∈ l1, key x < key (pyMaxBy key c cs)) ∧
      (∀ x ∈ l2, key x ≤ key (pyMaxBy key c cs)) := by
  induction cs generalizing c with
  | nil => exact ⟨[], [], rfl, by simp, by simp⟩
  | cons x xs ih =>
    have hstep : pyMaxBy key c (x :: xs) = pyMaxBy key (if key x > key c then x else c) xs := rfl
    by_cases h : key x > key c
    · rw [hstep, if_pos h]
      obtain ⟨l1, l2, hdec, hlt, hle⟩ := ih x
      cases l1 with
      | nil =>
        rw [List.nil_append] at hdec
        injection hdec with hx hxs
        refine ⟨[c], l2, ?_, ?_, hle⟩
        · rw [← hx, ← hxs]; rfl
        · intro y hy
          rw [List.mem_singleton] at hy
          subst hy
          exact hx ▸ h
      | cons a l1' =>
        rw [List.cons_append] at hdec
        injection hdec with ha hrest
        refine ⟨c :: a :: l1', l2, ?_, ?_, hle⟩
        · rw [List.cons_append, List.cons_append, ← hrest, ha]
        · intro y hy
          rcases List.mem_cons.mp hy with hy1 | hy1
          · subst hy1
            have hax : key a < key (pyMaxBy key x xs) := hlt a (List.mem_cons_self _ _)
            exact lt_trans (ha ▸ h) hax
          · exact hlt y hy1
    · rw [hstep, if_neg h]
      obtain ⟨l1, l2, hdec, hlt, hle⟩ := ih c
      cases l1 with
      | nil =>
        rw [List.nil_append] at hdec
        injection hdec with hc hxs
        refine ⟨[], x :: l2, ?_, by simp, ?_⟩
        · rw [List.nil_append, ← hc, ← hxs]
        · intro y hy
          rcases List.mem_cons.mp hy with hy1 | hy1
          · subst hy1; rw [← hc]; exact le_of_not_lt h
          · exact hle y hy1
      | cons a l1' =>
        rw [List.cons_append] at hdec
        injection hdec with ha hrest
        refine ⟨c :: x :: l1', l2, ?_, ?_, hle⟩
        · rw [List.cons_append, List.cons_append, ← hrest]
        · intro y hy
          have haR : key a < key (pyMaxBy key c xs) := hlt a (List.mem_cons_self _ _)
          rcases List.mem_cons.mp hy with hy1 | hy1
          · subst hy1
            exact ha ▸ haR
          · rcases List.mem_cons.mp hy1 with hy2 | hy2
            · subst hy2
              exact lt_of_le_of_lt (le_of_not_lt h) (ha ▸ haR)
            · exact hlt y (List.mem_cons_of_mem a hy2)

/-- One-step evaluation of a terminal node on a memo miss. -/
theorem calcNodeEV_terminal (all_nodes : List TreeNode) (fuel : Nat)
    (node : TreeNode) (st : EvalState) (htype : node.node_type = "terminal")
    (hmemo : getKey st.evs node.id = none) :
    calcNodeEV all_nodes (fuel + 1) node st =
      some (node.utility.getD 0 - node.cost.getD 0,
        pushResult st node.id (node.utility.getD 0 - node.cost.getD 0) "terminal") := by
  simp [calcNodeEV, hmemo, htype]

/-- A nonempty snapshot failing validation short-circuits both operations:
the evaluator returns the failure record with the issue list, the path
extractor propagates only the message. -/
theorem invalid_short_circuit (nodes : List TreeNode) (hne : nodes ≠ [])
    (hinv : (validate_tree_structure nodes).valid = false) :
    calculate_expected_value nodes =
      some (CalcResult.error "Tree validation failed"
        (some (validate_tree_structure nodes).issues)) ∧
    get_optimal_path nodes = some (PathResult.error "Tree validation failed") := by
  have hemp : nodes.isEmpty = false := by
    rw [Bool.eq_false_iff]
    simpa [List.isEmpty_iff] using hne
  have hcalc : calculate_expected_value nodes =
      some (CalcResult.error "Tree validation failed"
        (some (validate_tree_structure nodes).issues)) := by
    simp [calculate_expected_value, calculate_expected_value_fuel, hemp, hinv]
  exact ⟨hcalc, by simp [get_optimal_path, hcalc]⟩

/-- If the per-child evaluation always succeeds, so does the list
comprehension over the children. -/
theorem evalList_isSome (f : TreeNode → EvalState → Option (ℚ × EvalState))
    (cs : List TreeNode) (hf : ∀ c ∈ cs, ∀ st, (f c st).isSome) :
    ∀ st, (evalList f cs st).isSome := by
  induction cs with
  | nil => intro st; simp [evalList]
  | cons c rest ih =>
    intro st
    obtain ⟨⟨v, st1⟩, h1⟩ := Option.isSome_iff_exists.mp
      (hf c (List.mem_cons_self _ _) st)
    obtain ⟨⟨vs, st2⟩, h2⟩ := Option.isSome_iff_exists.mp
      (ih (fun c2 h st2 => hf c2 (List.mem_cons_of_mem _ h) st2) st1)
    simp [evalList, h1, h2]

/-- If the per-child evaluation always succeeds, so does the choice-node
loop. -/
theorem choiceList_isSome (all_nodes : List TreeNode)
    (f : TreeNode → EvalState → Option (ℚ × EvalState))
    (cs : List TreeNode) (hf : ∀ c ∈ cs, ∀ st, (f c st).isSome)
    (st : EvalState) (acc : ℚ) : (choiceList all_nodes f cs st acc).isSome := by
  rw [choiceList_eq_evalList]
  obtain ⟨r, hr⟩ := Option.isSome_iff_exists.mp (evalList_isSome f cs hf st)
  rw [hr]
  simp

/-- Fuel sufficiency: with unique ids, a node at the end of an ancestor
chain evaluates successfully whenever the fuel at least covers the
remaining depth (the snapshot size minus the chain length).  This is the
formal counterpart of "recursion depth is bounded by the node count". -/
theorem calcNodeEV_isSome (all_nodes : List TreeNode) (hnodup : NodupIds all_nodes) :
    ∀ fuel (anc : List TreeNode) (n : TreeNode), Chain all_nodes anc n →
      all_nodes.length ≤ fuel + anc.length →
      ∀ st, (calcNodeEV all_nodes fuel n st).isSome := by
  intro fuel
  induction fuel with
  | zero =>
    intro anc n hchain hb st
    have := chain_length_le hnodup hchain
    omega
  | succ fuel ih =>
    intro anc n hchain hb st
    have hcalc : ∀ c ∈ childrenOf all_nodes n, ∀ st2,
        (calcNodeEV all_nodes fuel c st2).isSome := by
      intro c hc st2
      refine ih (anc ++ [n]) c
        (Chain.step hchain (mem_of_childrenOf hc).1 (mem_of_childrenOf hc).2) ?_ st2
      simp only [List.length_append, List.length_singleton]
      omega
    rw [calcNodeEV.eq_2]
    cases hk : getKey st.evs n.id with
    | some v => simp
    | none =>
      simp only []
      by_cases ht : n.node_type == "terminal"
      · simp [ht]
      · by_cases hd : n.node_type == "decision"
        · simp only [ht, hd, Bool.false_eq_true, if_false, if_true]
          cases hch : childrenOf all_nodes n with
          | nil => simp
          | cons c rest =>
            obtain ⟨⟨v, st1⟩, h1⟩ := Option.isSome_iff_exists.mp
              (hcalc c (hch ▸ List.mem_cons_self _ _) st)
            obtain ⟨⟨vs, st2⟩, h2⟩ := Option.isSome_iff_exists.mp
              (evalList_isSome _ rest
                (fun c2 h st2 => hcalc c2 (hch ▸ List.mem_cons_of_mem _ h) st2) st1)
            simp [h1, h2]
        · by_cases hc2 : n.node_type == "chance"
          · simp only [ht, hd, hc2, Bool.false_eq_true, if_false, if_true]
            cases hch : childrenOf all_nodes n with
            | nil => simp
            | cons c rest =>
              have hcs : ∀ c2 ∈ c :: rest, ∀ st2,
                  (calcNodeEV all_nodes fuel c2 st2).isSome :=
                fun c2 h st2 => hcalc c2 (hch ▸ h) st2
              by_cases hicn : is_choice_node n all_nodes
              · obtain ⟨⟨w, stw⟩, hw⟩ := Option.isSome_iff_exists.mp
                  (choiceList_isSome all_nodes _ (c :: rest) hcs st 0)
                simp [hicn, hw]
              · by_cases hiu : is_uncertain_event n all_nodes
                · cases rest with
                  | nil =>
                    obtain ⟨⟨v, st1⟩, h1⟩ := Option.isSome_iff_exists.mp
                      (hcs c (List.mem_cons_self _ _) st)
                    simp [hicn, hiu, h1]
                  | cons c2 rest2 =>
                    obtain ⟨⟨v, st1⟩, h1⟩ := Option.isSome_iff_exists.mp
                      (hcs c (List.mem_cons_self _ _) st)
                    obtain ⟨⟨vs, st2⟩, h2⟩ := Option.isSome_iff_exists.mp
                      (evalList_isSome _ (c2 :: rest2)
                        (fun c3 h st3 => hcs c3 (List.mem_cons_of_mem _ h) st3) st1)
                    simp [hicn, hiu, h1, h2]
                · obtain ⟨⟨v, st1⟩, h1⟩ := Option.isSome_iff_exists.mp
                    (hcs c (List.mem_cons_self _ _) st)
                  obtain ⟨⟨vs, st2⟩, h2⟩ := Option.isSome_iff_exists.mp
                    (evalList_isSome _ rest
                      (fun c3 h st3 => hcs c3 (List.mem_cons_of_mem _ h) st3) st1)
                  simp [hicn, hiu, h1, h2]
          · simp [ht, hd, hc2]

/-- Assigning a key to an association list adds at most that key. -/
theorem mem_keys_setKey {α : Type} (m : List (Nat × α)) (k2 : Nat) (v : α) (k : Nat)
    (h : k ∈ (setKey m k2 v).map Prod.fst) : k ∈ m.map Prod.fst ∨ k = k2 := by
  unfold setKey at h
  split at h
  · rw [List.map_map] at h
    obtain ⟨p, hp, he⟩ := List.mem_map.mp h
    by_cases hpk : (p.1 == k2) = true
    · simp only [Function.comp, hpk, if_true] at he
      exact Or.inr he.symm
    · simp only [Function.comp, hpk, if_false] at he
      exact Or.inl (List.mem_map.mpr ⟨p, hp, he⟩)
  · rw [List.map_append] at h
    rcases List.mem_append.mp h with h2 | h2
    · exact Or.inl h2
    · rw [List.map_singleton, List.mem_singleton] at h2
      exact Or.inr h2

/-- Recording a node's result adds at most that node's id to the state. -/
theorem keyIn_pushResult {st : EvalState} {nid : Nat} {ev : ℚ} {tag : String}
    {k : Nat} (h : keyIn k (pushResult st nid ev tag)) : keyIn k st ∨ k = nid := by
  rcases h with h | h
  · rcases mem_keys_setKey _ _ _ _ h with h2 | h2
    · exact Or.inl (Or.inl h2)
    · exact Or.inr h2
  · rcases mem_keys_setKey _ _ _ _ h with h2 | h2
    · exact Or.inl (Or.inr h2)
    · exact Or.inr h2

/-- Key coverage of the child list comprehension: a key of the final state
was already present or is accounted for by one of the children. -/
theorem evalList_keys (f : TreeNode → EvalState → Option (ℚ × EvalState))
    (Q : TreeNode → Nat → Prop) :
    ∀ (cs : List TreeNode), (∀ c ∈ cs, ∀ st r, f c st = some r →
        ∀ k, keyIn k r.2 → keyIn k st ∨ Q c k) →
      ∀ st r, evalList f cs st = some r →
        ∀ k, keyIn k r.2 → keyIn k st ∨ ∃ c ∈ cs, Q c k := by
  intro cs
  induction cs with
  | nil =>
    intro _ st r h k hk
    simp only [evalList] at h
    injection h with h
    subst h
    exact Or.inl hk
  | cons c rest ih =>
    intro hf st r h k hk
    simp only [evalList] at h
    cases h1 : f c st with
    | none =>
      rw [h1] at h
      exact Option.noConfusion h
    | some p =>
      obtain ⟨v, st1⟩ := p
      rw [h1] at h
      dsimp only at h
      cases h2 : evalList f rest st1 with
      | none =>
        rw [h2] at h
        exact Option.noConfusion h
      | some q =>
        obtain ⟨vs, st2⟩ := q
        rw [h2] at h
        dsimp only at h
        injection h with h
        subst h
        rcases ih (fun c2 hm => hf c2 (List.mem_cons_of_mem _ hm)) st1 (vs, st2) h2 k hk
          with h3 | ⟨c2, hm, hq⟩
        · rcases hf c (List.mem_cons_self _ _) st (v, st1) h1 k h3 with h4 | h4
          · exact Or.inl h4
          · exact Or.inr ⟨c, List.mem_cons_self _ _, h4⟩
        · exact Or.inr ⟨c2, List.mem_cons_of_mem _ hm, hq⟩

/-- Key coverage of the choice-node loop. -/
theorem choiceList_keys (all_nodes : List TreeNode)
    (f : TreeNode → EvalState → Option (ℚ × EvalState))
    (Q : TreeNode → Nat → Prop) (cs : List TreeNode)
    (hf : ∀ c ∈ cs, ∀ st r, f c st = some r →
      ∀ k, keyIn k r.2 → keyIn k st ∨ Q c k)
    (st : EvalState) (acc : ℚ) (r : ℚ × EvalState)
    (h : choiceList all_nodes f cs st acc = some r) :
    ∀ k, keyIn k r.2 → keyIn k st ∨ ∃ c ∈ cs, Q c k := by
  rw [choiceList_eq_evalList] at h
  cases h2 : evalList f cs st with
  | none =>
    rw [h2] at h
    exact Option.noConfusion h
  | some q =>
    rw [h2] at h
    simp only [Option.map_some'] at h
    injection h with h
    subst h
    exact evalList_keys f Q cs hf st q h2

/-- Key coverage of the evaluator: every id recorded during the evaluation
of a node belongs to a node reachable from it along child edges. -/
theorem calcNodeEV_keys (all_nodes : List TreeNode) :
    ∀ fuel (n : TreeNode), n ∈ all_nodes → ∀ st r,
      calcNodeEV all_nodes fuel n st = some r →
      ∀ k, keyIn k r.2 → keyIn k st ∨
        ∃ nd ∈ all_nodes, Reach all_nodes n nd ∧ nd.id = k := by
  intro fuel
  induction fuel with
  | zero =>
    intro n _ st r h
    exact absurd h (by simp [calcNodeEV])
  | succ fuel ih =>
    intro n hn st r h k hk
    have hlift : ∀ c ∈ childrenOf all_nodes n,
        (∃ nd ∈ all_nodes, Reach all_nodes c nd ∧ nd.id = k) →
        ∃ nd ∈ all_nodes, Reach all_nodes n nd ∧ nd.id = k := by
      rintro c hc ⟨nd, hm, hr, hid⟩
      exact ⟨nd, hm,
        Reach.step (mem_of_childrenOf hc).1 (mem_of_childrenOf hc).2 hr, hid⟩
    have hself : k = n.id → ∃ nd ∈ all_nodes, Reach all_nodes n nd ∧ nd.id = k :=
      fun hid => ⟨n, hn, Reach.refl n, hid.symm⟩
    have hchildf : ∀ cs2, cs2 ⊆ childrenOf all_nodes n →
        ∀ c ∈ cs2, ∀ st2 r2, calcNodeEV all_nodes fuel c st2 = some r2 →
          ∀ k2, keyIn k2 r2.2 → keyIn k2 st2 ∨
            ∃ nd ∈ all_nodes, Reach all_nodes c nd ∧ nd.id = k2 :=
      fun cs2 hsub c hc st2 r2 h2 k2 hk2 =>
        ih c (mem_of_childrenOf (hsub hc)).1 st2 r2 h2 k2 hk2
    rw [calcNodeEV.eq_2] at h
    cases hkm : getKey st.evs n.id with
    | some v =>
      rw [hkm] at h
      dsimp only at h
      injection h with h
      subst h
      exact Or.inl hk
    | none =>
      rw [hkm] at h
      dsimp only at h
      by_cases ht : n.node_type == "terminal"
      · rw [if_pos ht] at h
        injection h with h
        subst h
        rcases keyIn_pushResult hk with h2 | h2
        · exact Or.inl h2
        · exact Or.inr (hself h2)
      · rw [if_neg ht] at h
        by_cases hd : n.node_type == "decision"
        · rw [if_pos hd] at h
          cases hch : childrenOf all_nodes n with
          | nil =>
            rw [hch] at h
            dsimp only at h
            injection h with h
            subst h
            rcases keyIn_pushResult hk with h2 | h2
            · exact Or.inl h2
            · exact Or.inr (hself h2)
          | cons c rest =>
            rw [hch] at h
            dsimp only at h
            cases h1 : calcNodeEV all_nodes fuel c st with
            | none => rw [h1] at h; exact Option.noConfusion h
            | some p =>
              obtain ⟨v, st1⟩ := p
              rw [h1] at h
              dsimp only at h
              cases h2 : evalList (calcNodeEV all_nodes fuel) rest st1 with
              | none => rw [h2] at h; exact Option.noConfusion h
              | some q =>
                obtain ⟨vs, st2⟩ := q
                rw [h2] at h
                dsimp only at h
                injection h with h
                subst h
                rcases keyIn_pushResult hk with h3 | h3
                · rcases evalList_keys _ _ rest
                      (hchildf rest (by rw [hch]; exact fun x hx => List.mem_cons_of_mem _ hx))
                      st1 (vs, st2) h2 k h3 with h4 | ⟨c2, hm, hq⟩
                  · rcases hchildf (c :: rest) (by rw [hch]; exact fun x hx => hx) c
                        (List.mem_cons_self _ _) st (v, st1) h1 k h4 with h5 | h5
                    · exact Or.inl h5
                    · exact Or.inr (hlift c (by rw [hch]; exact List.mem_cons_self _ _) h5)
                  · exact Or.inr (hlift c2
                      (by rw [hch]; exact List.mem_cons_of_mem _ hm) hq)
                · exact Or.inr (hself h3)
        · rw [if_neg hd] at h
          by_cases hc2 : n.node_type == "chance"
          · rw [if_pos hc2] at h
            cases hch : childrenOf all_nodes n with
            | nil =>
              rw [hch] at h
              dsimp only at h
              injection h with h
              subst h
              rcases keyIn_pushResult hk with h2 | h2
              · exact Or.inl h2
              · exact Or.inr (hself h2)
            | cons c rest =>
              rw [hch] at h
              dsimp only at h
              by_cases hicn : is_choice_node n all_nodes
              · rw [if_pos hicn] at h
                cases h1 : choiceList all_nodes (calcNodeEV all_nodes fuel) (c :: rest) st 0 with
                | none => rw [h1] at h; exact Option.noConfusion h
                | some p =>
                  obtain ⟨w, st2⟩ := p
                  rw [h1] at h
                  dsimp only at h
                  injection h with h
                  subst h
                  rcases keyIn_pushResult hk with h3 | h3
                  · rcases choiceList_keys all_nodes _ _ (c :: rest)
                        (hchildf (c :: rest) (by rw [hch]; exact fun x hx => hx)) st 0 (w, st2) h1 k h3
                      with h4 | ⟨c2, hm, hq⟩
                    · exact Or.inl h4
                    · exact Or.inr (hlift c2 (by rw [hch]; exact hm) hq)
                  · exact Or.inr (hself h3)
              · rw [if_neg hicn] at h
                by_cases hiu : is_uncertain_event n all_nodes
                · rw [if_pos hiu] at h
                  cases rest with
                  | nil =>
                    cases h1 : calcNodeEV all_nodes fuel c st with
                    | none => rw [h1] at h; exact Option.noConfusion h
                    | some p =>
                      obtain ⟨v, st1⟩ := p
                      rw [h1] at h
                      dsimp only at h
                      injection h with h
                      subst h
                      rcases keyIn_pushResult hk with h3 | h3
                      · rcases hchildf [c] (by rw [hch]; exact fun x hx => hx) c (List.mem_cons_self _ _)
                            st (v, st1) h1 k h3 with h4 | h4
                        · exact Or.inl h4
                        · exact Or.inr (hlift c (by rw [hch]; exact List.mem_cons_self _ _) h4)
                      · exact Or.inr (hself h3)
                  | cons c2 rest2 =>
                    cases h1 : calcNodeEV all_nodes fuel c st with
                    | none => rw [h1] at h; exact Option.noConfusion h
                    | some p =>
                      obtain ⟨v, st1⟩ := p
                      rw [h1] at h
                      dsimp only at h
                      cases h2 : evalList (calcNodeEV all_nodes fuel) (c2 :: rest2) st1 with
                      | none => rw [h2] at h; exact Option.noConfusion h
                      | some q =>
                        obtain ⟨vs, st2⟩ := q
                        rw [h2] at h
                        dsimp only at h
                        injection h with h
                        subst h
                        rcases keyIn_pushResult hk with h3 | h3
                        · rcases evalList_keys _ _ (c2 :: rest2)
                              (hchildf (c2 :: rest2)
                                (by rw [hch]; exact fun x hx => List.mem_cons_of_mem _ hx))
                              st1 (vs, st2) h2 k h3 with h4 | ⟨c3, hm, hq⟩
                          · rcases hchildf (c :: c2 :: rest2) (by rw [hch]; exact fun x hx => hx) c
                                (List.mem_cons_self _ _) st (v, st1) h1 k h4 with h5 | h5
                            · exact Or.inl h5
                            · exact Or.inr (hlift c
                                (by rw [hch]; exact List.mem_cons_self _ _) h5)
                          · exact Or.inr (hlift c3
                              (by rw [hch]; exact List.mem_cons_of_mem _ hm) hq)
                        · exact Or.inr (hself h3)
                · rw [if_neg hiu] at h
                  cases h1 : calcNodeEV all_nodes fuel c st with
                  | none => rw [h1] at h; exact Option.noConfusion h
                  | some p =>
                    obtain ⟨v, st1⟩ := p
                    rw [h1] at h
                    dsimp only at h
                    cases h2 : evalList (calcNodeEV all_nodes fuel) rest st1 with
                    | none => rw [h2] at h; exact Option.noConfusion h
                    | some q =>
                      obtain ⟨vs, st2⟩ := q
                      rw [h2] at h
                      dsimp only at h
                      injection h with h
                      subst h
                      rcases keyIn_pushResult hk with h3 | h3
                      · rcases evalList_keys _ _ rest
                            (hchildf rest
                              (by rw [hch]; exact fun x hx => List.mem_cons_of_mem _ hx))
                            st1 (vs, st2) h2 k h3 with h4 | ⟨c3, hm, hq⟩
                        · rcases hchildf (c :: rest) (by rw [hch]; exact fun x hx => hx) c
                              (List.mem_cons_self _ _) st (v, st1) h1 k h4 with h5 | h5
                          · exact Or.inl h5
                          · exact Or.inr (hlift c
                              (by rw [hch]; exact List.mem_cons_self _ _) h5)
                        · exact Or.inr (hlift c3
                            (by rw [hch]; exact List.mem_cons_of_mem _ hm) hq)
                      · exact Or.inr (hself h3)
          · rw [if_neg hc2] at h
            injection h with h
            subst h
            rcases keyIn_pushResult hk with h2 | h2
            · exact Or.inl h2
            · exact Or.inr (hself h2)

/-- A node reachable from `r0` that has no parent is `r0` itself. -/
theorem reach_eq_of_no_parent {all_nodes : List TreeNode} {r0 nd : TreeNode}
    (h : Reach all_nodes r0 nd) (hp : nd.parent_node_id = none) : nd = r0 := by
  induction h with
  | refl n => rfl
  | step hc hpar _ ih =>
    have he := ih hp
    subst he
    rw [hp] at hpar
    exact Option.noConfusion hpar

/-! ### Validator decomposition -/

/-- For a nonempty snapshot the issue list is the root check, then the
per-node loop contributions in stored order, then the orphan pass. -/
theorem validate_issues_decomp (nodes : List TreeNode) (h : nodes ≠ []) :
    (validate_tree_structure nodes).issues =
      (if (nodes.filter (fun n => n.parent_node_id.isNone)).length = 0
        then [Issue.noRoot] else []) ++
      nodes.flatMap (nodeIssues nodes) ++ orphanIssues nodes := by
  have h2 : nodes.isEmpty = false := by
    rw [Bool.eq_false_iff]
    simpa [List.isEmpty_iff] using h
  simp [validate_tree_structure, h2]

/-- For a nonempty snapshot the warning list is the multiple-roots check
then the per-node loop contributions in stored order. -/
theorem validate_warnings_decomp (nodes : List TreeNode) (h : nodes ≠ []) :
    (validate_tree_structure nodes).warnings =
      (if (nodes.filter (fun n => n.parent_node_id.isNone)).length > 1
        then [Warning.multipleRoots (nodes.filter (fun n => n.parent_node_id.isNone)).length]
        else []) ++
      nodes.flatMap (nodeWarnings nodes) := by
  have h2 : nodes.isEmpty = false := by
    rw [Bool.eq_false_iff]
    simpa [List.isEmpty_iff] using h
  simp [validate_tree_structure, h2]

/-- Anything the per-node loop contributes for a member node ends up in the
final issue list. -/
theorem mem_issues_of_mem_nodeIssues {nodes : List TreeNode} {node : TreeNode}
    (hmem : node ∈ nodes) {i : Issue} (hi : i ∈ nodeIssues nodes node) :
    i ∈ (validate_tree_structure nodes).issues := by
  rw [validate_issues_decomp nodes (List.ne_nil_of_mem hmem)]
  exact List.mem_append_left _
    (List.mem_append_right _ (List.mem_flatMap.mpr ⟨node, hmem, hi⟩))

/-- Anything the per-node loop contributes for a member node ends up in the
final warning list. -/
theorem mem_warnings_of_mem_nodeWarnings {nodes : List TreeNode} {node : TreeNode}
    (hmem : node ∈ nodes) {w : Warning} (hw : w ∈ nodeWarnings nodes node) :
    w ∈ (validate_tree_structure nodes).warnings := by
  rw [validate_warnings_decomp nodes (List.ne_nil_of_mem hmem)]
  exact List.mem_append_right _ (List.mem_flatMap.mpr ⟨node, hmem, hw⟩)

/-! ### The probability-sum check -/

/-- The running total of the group loop is the sum of the present
probabilities. -/
theorem groupScan_total (pn : String) (cs : List TreeNode) :
    (groupScan pn cs).1 = (cs.filterMap TreeNode.probability).sum := by
  induction cs with
  | nil => simp [groupScan]
  | cons c rest ih => cases hc : c.probability <;> simp [groupScan, hc, ih]

/-- The missing counter of the group loop counts the children without a
probability. -/
theorem groupScan_missing (pn : String) (cs : List TreeNode) :
    (groupScan pn cs).2.1 = (cs.filter (fun c => c.probability.isNone)).length := by
  induction cs with
  | nil => simp [groupScan]
  | cons c rest ih => cases hc : c.probability <;> simp [groupScan, hc, ih]

/-- The group loop itself only emits missing- or invalid-probability
issues, never the sum issue. -/
theorem probabilitySum_not_mem_groupScan (pn nm : String) (t : ℚ) (cs : List TreeNode) :
    Issue.probabilitySum nm t ∉ (groupScan pn cs).2.2 := by
  induction cs with
  | nil => simp [groupScan]
  | cons c rest ih =>
    cases hc : c.probability with
    | none => simp [groupScan, hc, ih]
    | some p =>
      by_cases hp : ¬(0 ≤ p ∧ p ≤ 1) <;> simp [groupScan, hc, hp, ih]

/-- Exactly when the sum issue for a node appears in that node's group
check: the node is an uncertain event with more than one child, more than
one of them uncertain events, none of those missing a probability, and the
total deviating from 1 by more than the tolerance. -/
theorem probabilitySum_mem_groupIssues (all_nodes : List TreeNode) (node : TreeNode)
    (nm : String) (t : ℚ) :
    Issue.probabilitySum nm t ∈ groupIssues all_nodes node ↔
      nm = node.name ∧
      is_uncertain_event node all_nodes = true ∧
      1 < (childrenOf all_nodes node).length ∧
      1 < ((childrenOf all_nodes node).filter
        (fun c => is_uncertain_event c all_nodes)).length ∧
      (groupScan node.name ((childrenOf all_nodes node).filter
        (fun c => is_uncertain_event c all_nodes))).2.1 = 0 ∧
      |(groupScan node.name ((childrenOf all_nodes node).filter
        (fun c => is_uncertain_event c all_nodes))).1 - 1| > 1 / 1000 ∧
      t = (groupScan node.name ((childrenOf all_nodes node).filter
        (fun c => is_uncertain_event c all_nodes))).1 := by
  unfold groupIssues
  by_cases hu : is_uncertain_event node all_nodes = true
  · by_cases hl : 1 < (childrenOf all_nodes node).length
    · rw [if_pos (by simp [hu, hl])]
      by_cases hul : 1 < ((childrenOf all_nodes node).filter
          (fun c => is_uncertain_event c all_nodes)).length
      · rw [if_pos hul, List.mem_append]
        constructor
        · rintro (habs | hmem)
          · exact absurd habs (probabilitySum_not_mem_groupScan _ _ _ _)
          · by_cases hcond : (groupScan node.name ((childrenOf all_nodes node).filter
                (fun c => is_uncertain_event c all_nodes))).2.1 = 0 ∧
                |(groupScan node.name ((childrenOf all_nodes node).filter
                  (fun c => is_uncertain_event c all_nodes))).1 - 1| > 1 / 1000
            · rw [if_pos hcond, List.mem_singleton] at hmem
              injection hmem with h1 h2
              exact ⟨h1, hu, hl, hul, hcond.1, hcond.2, h2⟩
            · rw [if_neg hcond] at hmem
              exact absurd hmem (List.not_mem_nil _)
        · rintro ⟨h1, -, -, -, hmiss, htol, ht⟩
          right
          rw [if_pos ⟨hmiss, htol⟩, List.mem_singleton, h1, ht]
      · rw [if_neg hul]
        simp [hul]
    · rw [if_neg (by simp [hl])]
      simp [hl]
  · rw [if_neg (by simp [hu])]
    simp [hu]

/-- When the node is not a chance node its group check contributes
nothing. -/
theorem groupIssues_eq_nil_of_not_chance {all_nodes : List TreeNode} {node : TreeNode}
    (h : node.node_type ≠ "chance") : groupIssues all_nodes node = [] := by
  unfold groupIssues
  rw [if_neg]
  simp [is_uncertain_event, h]

/-- The sum issue can enter a node's contribution only through the group
check. -/
theorem probabilitySum_mem_nodeIssues (all_nodes : List TreeNode) (node : TreeNode)
    (nm : String) (t : ℚ) :
    Issue.probabilitySum nm t ∈ nodeIssues all_nodes node ↔
      Issue.probabilitySum nm t ∈ groupIssues all_nodes node := by
  unfold nodeIssues
  by_cases ht : node.node_type = "terminal"
  · rw [if_pos (by simp [ht]), groupIssues_eq_nil_of_not_chance (by simp [ht])]
    split_ifs <;> simp
  · by_cases hc : node.node_type = "chance"
    · rw [if_neg (by simp [ht]), if_pos (by simp [hc]), List.mem_append]
      constructor
      · rintro (ha | hg)
        · exfalso
          rcases hp : node.probability with _ | p <;> revert ha <;>
            simp only [hp] <;> split_ifs <;> simp
        · exact hg
      · exact fun hg => Or.inr hg
    · rw [if_neg (by simp [ht]), if_neg (by simp [hc]),
        groupIssues_eq_nil_of_not_chance hc]

/-- The sum issue never comes from the root check or the orphan pass. -/
theorem probabilitySum_mem_validate (nodes : List TreeNode) (h : nodes ≠ [])
    (nm : String) (t : ℚ) :
    Issue.probabilitySum nm t ∈ (validate_tree_structure nodes).issues ↔
      ∃ node ∈ nodes, Issue.probabilitySum nm t ∈ groupIssues nodes node := by
  rw [validate_issues_decomp nodes h, List.mem_append, List.mem_append]
  constructor
  · rintro ((hr | hf) | ho)
    · revert hr; split_ifs <;> simp
    · obtain ⟨node, hmem, hi⟩ := List.mem_flatMap.mp hf
      exact ⟨node, hmem, (probabilitySum_mem_nodeIssues nodes node nm t).mp hi⟩
    · exfalso
      obtain ⟨x, -, habs⟩ := List.mem_map.mp ho
      exact Issue.noConfusion habs
  · rintro ⟨node, hmem, hg⟩
    exact Or.inl (Or.inr (List.mem_flatMap.mpr
      ⟨node, hmem, (probabilitySum_mem_nodeIssues nodes node nm t).mpr hg⟩))

/-! ## Claim C2 -/

/-- Claim C2, counterexample to the claim as stated: in `treeSumSkipped`
the choice node `C` has two uncertain-event children, both probabilities
present, summing to 0.6 (deviation 0.4 > 1e-3), yet validation emits no
issue at all — the sum check only runs when the parent itself is an
uncertain event, not for every node. -/
theorem C2_counterexample :
    1 < ((childrenOf treeSumSkipped (mkNode 1 (some 0) "chance" "C" none (some 0) none)).filter
      (fun c => is_uncertain_event c treeSumSkipped)).length ∧
    ((childrenOf treeSumSkipped (mkNode 1 (some 0) "chance" "C" none (some 0) none)).filter
      (fun c => is_uncertain_event c treeSumSkipped)).all
        (fun c => c.probability.isSome) = true ∧
    |((((childrenOf treeSumSkipped (mkNode 1 (some 0) "chance" "C" none (some 0) none)).filter
      (fun c => is_uncertain_event c treeSumSkipped)).filterMap
        TreeNode.probability).sum - 1 : ℚ)| > 1 / 1000 ∧
    (validate_tree_structure treeSumSkipped).issues = [] := by
  refine ⟨by decide, by decide, ?_, ?_⟩
  · have hch : ((childrenOf treeSumSkipped
        (mkNode 1 (some 0) "chance" "C" none (some 0) none)).filter
          (fun c => is_uncertain_event c treeSumSkipped)) =
        [mkNode 2 (some 1) "chance" "U1" (some (3/10)) (some 0) none,
         mkNode 3 (some 1) "chance" "U2" (some (3/10)) (some 0) none] := by
      norm_num [childrenOf, treeSumSkipped, List.filter, is_uncertain_event,
        is_choice_node, List.find?]
      all_goals try simp
    rw [hch, gt_iff_lt, lt_abs]
    right
    norm_num [List.filterMap]
  · norm_num [validate_tree_structure, treeSumSkipped, mkNode, nodeIssues,
      nodeWarnings, groupIssues, groupScan, orphanIssues, childrenOf,
      is_choice_node, is_uncertain_event, List.filter, List.find?]
    simp

/-- Claim C2 (amended): for every **uncertain-event** chance node with at
least two children of which at least two are uncertain events, validation
emits the probability-sum issue naming that node exactly when all those
children's probabilities are present and their sum deviates from 1.0 by
more than 1e-3; a missing probability on any such sibling suppresses the
sum check for the group; nodes not classified as uncertain events (choice
nodes, decision nodes) never get a sum check.  Scenario D: siblings with
probabilities 0.3 and 0.5 and a missing third yield exactly the two
missing-probability issues and no sum issue. -/
theorem C2_probability_sum_validation (all_nodes : List TreeNode)
    (hnames : (all_nodes.map TreeNode.name).Nodup) :
    (∀ node ∈ all_nodes, is_uncertain_event node all_nodes = true →
      1 < (childrenOf all_nodes node).length →
      1 < ((childrenOf all_nodes node).filter
        (fun c => is_uncertain_event c all_nodes)).length →
      ((∃ tot, Issue.probabilitySum node.name tot ∈
          (validate_tree_structure all_nodes).issues) ↔
        ((∀ c ∈ (childrenOf all_nodes node).filter
            (fun c => is_uncertain_event c all_nodes), c.probability.isSome) ∧
          |(((childrenOf all_nodes node).filter
            (fun c => is_uncertain_event c all_nodes)).filterMap
              TreeNode.probability).sum - 1| > 1 / 1000))) ∧
    (∀ node ∈ all_nodes, is_uncertain_event node all_nodes = false →
      ∀ tot, Issue.probabilitySum node.name tot ∉
        (validate_tree_structure all_nodes).issues) ∧
    (validate_tree_structure treeD).issues =
      [Issue.groupMissingProbability "U3" "R",
       Issue.uncertainMissingProbability "U3"] := by
  refine ⟨?_, ?_, ?_⟩
  · intro node hmem hu hl hul
    have hne : all_nodes ≠ [] := List.ne_nil_of_mem hmem
    constructor
    · rintro ⟨tot, hiss⟩
      obtain ⟨n2, hmem2, hg⟩ :=
        (probabilitySum_mem_validate all_nodes hne node.name tot).mp hiss
      obtain ⟨hnm, -, -, -, hmiss, htol, -⟩ :=
        (probabilitySum_mem_groupIssues all_nodes n2 node.name tot).mp hg
      have heq : n2 = node := List.inj_on_of_nodup_map hnames hmem2 hmem hnm.symm
      subst heq
      rw [groupScan_missing] at hmiss
      rw [groupScan_total] at htol
      refine ⟨?_, htol⟩
      intro c hc
      have hfil := List.length_eq_zero.mp hmiss
      have := List.filter_eq_nil_iff.mp hfil c hc
      simpa [Option.isSome_iff_ne_none, Option.isNone_iff_eq_none] using this
    · rintro ⟨hall, htol⟩
      refine ⟨(groupScan node.name ((childrenOf all_nodes node).filter
        (fun c => is_uncertain_event c all_nodes))).1, ?_⟩
      apply (probabilitySum_mem_validate all_nodes hne node.name _).mpr
      refine ⟨node, hmem, ?_⟩
      apply (probabilitySum_mem_groupIssues all_nodes node node.name _).mpr
      refine ⟨rfl, hu, hl, hul, ?_, ?_, rfl⟩
      · rw [groupScan_missing, List.length_eq_zero, List.filter_eq_nil_iff]
        intro c hc
        have := hall c hc
        simp [Option.isNone_iff_eq_none, Option.isSome_iff_ne_none] at this ⊢
        exact this
      · rw [groupScan_total]
        exact htol
  · intro node hmem hu tot hiss
    have hne : all_nodes ≠ [] := List.ne_nil_of_mem hmem
    obtain ⟨n2, hmem2, hg⟩ :=
      (probabilitySum_mem_validate all_nodes hne node.name tot).mp hiss
    obtain ⟨hnm, hu2, -⟩ :=
      (probabilitySum_mem_groupIssues all_nodes n2 node.name tot).mp hg
    have heq : n2 = node := List.inj_on_of_nodup_map hnames hmem2 hmem hnm.symm
    subst heq
    rw [hu] at hu2
    exact Bool.noConfusion hu2
  · norm_num [validate_tree_structure, treeD, mkNode, nodeIssues,
      nodeWarnings, groupIssues, groupScan, orphanIssues, childrenOf,
      is_choice_node, is_uncertain_event, List.filter, List.find?]
    simp

/-- Claim C2, witness: the amended theorem applied to scenario D — the
uncertain root `R` of `treeD` has three uncertain-event children with one
probability missing, so no sum issue naming `R` is emitted. -/
theorem C2_witness :
    Issue.probabilitySum "R" (4/5) ∉ (validate_tree_structure treeD).issues := by
  intro hmem
  have h := (C2_probability_sum_validation treeD (by decide)).1
    (mkNode 0 none "chance" "R" (some (1/2)) (some 0) none)
    (List.mem_cons_self _ _) (by decide) (by decide) (by decide)
  have h2 := h.mp ⟨4/5, hmem⟩
  have h3 := h2.1 (mkNode 3 (some 0) "chance" "U3" none (some 0) none)
    (by simp [treeD, mkNode, childrenOf, is_uncertain_event, is_choice_node,
      List.filter, List.find?])
  simp [mkNode] at h3

/-! ## Claim C3 -/

/-- The validation result of `treeDecisionAttrs`: the decision node's
probability and utility yield warnings only, and the snapshot stays
valid. -/
theorem validate_treeDecisionAttrs :
    validate_tree_structure treeDecisionAttrs =
      { valid := true, issues := [],
        warnings := [Warning.decisionHasProbability "D",
          Warning.decisionHasUtility "D"],
        node_count := 2, root_count := 1 } := by
  norm_num [validate_tree_structure, treeDecisionAttrs, mkNode, nodeIssues,
    nodeWarnings, groupIssues, groupScan, orphanIssues, childrenOf,
    is_choice_node, is_uncertain_event, List.filter, List.find?]
  simp

/-- Claim C3, counterexample to the claim as stated: the decision root of
`treeDecisionAttrs` has a probability and a utility set, yet validation
reports no issue and `valid == true`. -/
theorem C3_counterexample :
    (mkNode 0 none "decision" "D" (some (1/2)) (some 0) (some 7)).node_type
        = "decision" ∧
    (mkNode 0 none "decision" "D" (some (1/2)) (some 0) (some 7)).probability.isSome
        = true ∧
    (mkNode 0 none "decision" "D" (some (1/2)) (some 0) (some 7)).utility.isSome
        = true ∧
    (mkNode 0 none "decision" "D" (some (1/2)) (some 0) (some 7)) ∈ treeDecisionAttrs ∧
    (validate_tree_structure treeDecisionAttrs).valid = true ∧
    (validate_tree_structure treeDecisionAttrs).issues = [] := by
  refine ⟨rfl, rfl, rfl, List.mem_cons_self _ _, ?_, ?_⟩ <;>
    rw [validate_treeDecisionAttrs]

/-- Claim C3 (amended): a decision node never contributes an issue — a set
probability or utility on it yields a warning; likewise a choice chance
node with children contributes no issue, its set probability or utility
yielding warnings; validity is unaffected (treeDecisionAttrs stays
valid). -/
theorem C3_attribute_violations_are_warnings :
    (∀ all_nodes node, node ∈ all_nodes → node.node_type = "decision" →
      nodeIssues all_nodes node = [] ∧
      (node.probability.isSome = true →
        Warning.decisionHasProbability node.name ∈
          (validate_tree_structure all_nodes).warnings) ∧
      (node.utility.isSome = true →
        Warning.decisionHasUtility node.name ∈
          (validate_tree_structure all_nodes).warnings)) ∧
    (∀ all_nodes node, node ∈ all_nodes → node.node_type = "chance" →
      is_choice_node node all_nodes = true →
      (childrenOf all_nodes node ≠ [] → nodeIssues all_nodes node = []) ∧
      (node.probability.isSome = true →
        Warning.choiceHasProbability node.name ∈
          (validate_tree_structure all_nodes).warnings) ∧
      (node.utility.isSome = true →
        Warning.choiceHasUtility node.name ∈
          (validate_tree_structure all_nodes).warnings)) ∧
    (validate_tree_structure treeDecisionAttrs).valid = true := by
  refine ⟨?_, ?_, by rw [validate_treeDecisionAttrs]⟩
  · intro all_nodes node hmem htype
    refine ⟨by simp [nodeIssues, htype], ?_, ?_⟩
    · intro hp
      refine mem_warnings_of_mem_nodeWarnings hmem ?_
      simp [nodeWarnings, htype, hp]
    · intro hu
      refine mem_warnings_of_mem_nodeWarnings hmem ?_
      simp [nodeWarnings, htype, hu]
  · intro all_nodes node hmem htype hchoice
    refine ⟨?_, ?_, ?_⟩
    · intro hch
      simp [nodeIssues, htype, hchoice, groupIssues, is_uncertain_event, hch]
    · intro hp
      refine mem_warnings_of_mem_nodeWarnings hmem ?_
      simp [nodeWarnings, htype, hchoice, hp]
    · intro hu
      refine mem_warnings_of_mem_nodeWarnings hmem ?_
      simp [nodeWarnings, htype, hchoice, hu]

/-- Claim C3, witness: the amended theorem applied to the decision root of
`treeDecisionAttrs` (warnings emitted) and to the choice node of
`treeCfixed` (no issue contribution). -/
theorem C3_witness :
    Warning.decisionHasProbability "D" ∈
      (validate_tree_structure treeDecisionAttrs).warnings ∧
    Warning.decisionHasUtility "D" ∈
      (validate_tree_structure treeDecisionAttrs).warnings ∧
    nodeIssues treeCfixed (mkNode 0 (some 9) "chance" "Root" none (some 0) none) = [] := by
  have h1 := C3_attribute_violations_are_warnings.1 treeDecisionAttrs
    (mkNode 0 none "decision" "D" (some (1/2)) (some 0) (some 7))
    (List.mem_cons_self _ _) rfl
  have h2 := C3_attribute_violations_are_warnings.2.1 treeCfixed
    (mkNode 0 (some 9) "chance" "Root" none (some 0) none)
    (List.mem_cons_of_mem _ (List.mem_cons_self _ _)) rfl (by decide)
  exact ⟨h1.2.1 rfl, h1.2.2 rfl, h2.1 (by decide)⟩

/-! ## Claim C4 -/

/-- Claim C4, counterexample to the claim as stated: the empty snapshot has
`valid == false` with the no-nodes issue, yet both operations return a
failure that does not carry the validator's issue list (the evaluator's
early return has no `validation_errors`, and the path extractor only ever
propagates the error message). -/
theorem C4_counterexample :
    calculate_expected_value [] = some (CalcResult.error "Tree has no nodes" none) ∧
    (validate_tree_structure []).valid = false ∧
    (validate_tree_structure []).issues = [Issue.noNodes] ∧
    get_optimal_path [] = some (PathResult.error "Tree has no nodes") :=
  ⟨rfl, rfl, rfl, rfl⟩

/-- Claim C4 (amended): for every nonempty snapshot failing validation,
`calculate_expected_value` returns the failure record carrying the
validator's issue list, and `get_optimal_path` returns a failure carrying
only the error message (the issue list is dropped); neither computes
expected values or path steps.  The empty snapshot short-circuits even
earlier with the no-nodes error and no issue list. -/
theorem C4_invalid_tree_short_circuit (nodes : List TreeNode) (hne : nodes ≠ [])
    (hinv : (validate_tree_structure nodes).valid = false) :
    calculate_expected_value nodes =
      some (CalcResult.error "Tree validation failed"
        (some (validate_tree_structure nodes).issues)) ∧
    get_optimal_path nodes = some (PathResult.error "Tree validation failed") :=
  invalid_short_circuit nodes hne hinv

/-- Claim C4, witness: the amended theorem applied to the invalid snapshot
`treeInvalid` (terminal root missing its utility). -/
theorem C4_witness :
    calculate_expected_value treeInvalid =
      some (CalcResult.error "Tree validation failed"
        (some [Issue.terminalMissingUtility "T"])) ∧
    get_optimal_path treeInvalid = some (PathResult.error "Tree validation failed") := by
  have hval : validate_tree_structure treeInvalid =
      { valid := false, issues := [Issue.terminalMissingUtility "T"],
        warnings := [], node_count := 1, root_count := 1 } := by
    norm_num [validate_tree_structure, treeInvalid, mkNode, nodeIssues,
      nodeWarnings, groupIssues, groupScan, orphanIssues, childrenOf,
      is_choice_node, is_uncertain_event, List.filter, List.find?]
  have h := C4_invalid_tree_short_circuit treeInvalid (by decide) (by rw [hval])
  rw [hval] at h
  exact h

/-! ## Claim C5 -/

/-- Claim C5: for every snapshot, `valid == true` iff the issue list is
empty; warnings play no part (the flag is computed from the issue list
alone in both branches of the validator). -/
theorem C5_valid_iff_issues_empty (nodes : List TreeNode) :
    (validate_tree_structure nodes).valid = true ↔
      (validate_tree_structure nodes).issues = [] := by
  by_cases h : nodes.isEmpty = true
  · rw [validate_tree_structure, if_pos h]
    simp
  · rw [validate_tree_structure, if_neg h]
    exact List.isEmpty_iff

/-- Claim C5, witness: the equivalence applied to the empty snapshot,
whose issue list is nonempty, hence not valid. -/
theorem C5_witness : ¬ (validate_tree_structure []).valid = true := by
  intro hv
  have h := (C5_valid_iff_issues_empty []).mp hv
  exact List.noConfusion h

/-! ## Claim C8 -/

/-- Claim C8: the snapshot with zero nodes is always invalid with exactly
the single no-nodes issue and an empty warning list; the validator is a
total function (it never raises). -/
theorem C8_empty_snapshot :
    validate_tree_structure [] =
      { valid := false, issues := [Issue.noNodes], warnings := [],
        node_count := 0, root_count := 0 } := rfl

/-! ## Claim C7 -/

/-- Claim C7: for every terminal node (memo miss), the evaluator returns
`utility − cost`; scenario A: a single terminal root with utility 100 and
cost 10 evaluates to `root_expected_value == 90`. -/
theorem C7_terminal_ev :
    (∀ all_nodes fuel node st, node.node_type = "terminal" →
      getKey st.evs node.id = none →
      calcNodeEV all_nodes (fuel + 1) node st =
        some (node.utility.getD 0 - node.cost.getD 0,
          pushResult st node.id (node.utility.getD 0 - node.cost.getD 0) "terminal")) ∧
    calculate_expected_value treeA =
      some (CalcResult.ok 90 [(0, 90)] [(0, "terminal")] 0) := by
  constructor
  · exact calcNodeEV_terminal
  · norm_num [calculate_expected_value, calculate_expected_value_fuel,
      validate_tree_structure, treeA, mkNode, nodeIssues, nodeWarnings,
      groupIssues, groupScan, orphanIssues, childrenOf, is_choice_node,
      is_uncertain_event, List.filter, List.find?, calcNodeEV, evalList,
      choiceList, getKey, setKey, pushResult, contribution]

/-- Claim C7, witness: the terminal rule applied to the root of `treeA`
with the empty memo. -/
theorem C7_witness :
    calcNodeEV treeA 1 (mkNode 0 none "terminal" "Outcome" none (some 10) (some 100))
      ⟨[], []⟩ =
      some ((100 : ℚ) - 10,
        pushResult ⟨[], []⟩ 0 ((100 : ℚ) - 10) "terminal") :=
  C7_terminal_ev.1 treeA 0 _ _ rfl rfl

/-! ## Claim C6 -/

set_option maxHeartbeats 2000000 in
/-- Claim C6 (details in the conjuncts): a decision node with no children
evaluates to `−cost`; with children, to the maximum of the child values
minus cost; the chosen child is the first achieving the maximum; scenario
B evaluates to 80 and its optimal path selects the second child. -/
theorem C6_decision_ev :
    (∀ all_nodes fuel node st, node.node_type = "decision" →
      getKey st.evs node.id = none → childrenOf all_nodes node = [] →
      calcNodeEV all_nodes (fuel + 1) node st =
        some (-node.cost.getD 0,
          pushResult st node.id (-node.cost.getD 0) "decision")) ∧
    (∀ all_nodes fuel node st c rest v vs st1 st2, node.node_type = "decision" →
      getKey st.evs node.id = none → childrenOf all_nodes node = c :: rest →
      calcNodeEV all_nodes fuel c st = some (v, st1) →
      evalList (calcNodeEV all_nodes fuel) rest st1 = some (vs, st2) →
      ∃ ev st', calcNodeEV all_nodes (fuel + 1) node st = some (ev, st') ∧
        ev + node.cost.getD 0 ∈ v :: vs ∧
        ∀ u ∈ v :: vs, u ≤ ev + node.cost.getD 0) ∧
    (∀ key c cs, ∃ l1 l2, c :: cs = l1 ++ pyMaxBy key c cs :: l2 ∧
      (∀ x ∈ l1, key x < key (pyMaxBy key c cs)) ∧
      (∀ x ∈ l2, key x ≤ key (pyMaxBy key c cs))) ∧
    calculate_expected_value treeB =
      some (CalcResult.ok 80 [(1, 50), (2, 80), (0, 80)]
        [(1, "terminal"), (2, "terminal"), (0, "decision")] 0) ∧
    get_optimal_path treeB =
      some (PathResult.ok
        [⟨1, 0, StepContent.nodeInfo "Decision" "decision" 80⟩,
         ⟨2, 1, StepContent.choose "Option B" 80⟩,
         ⟨3, 2, StepContent.nodeInfo "Option B" "terminal" 80⟩] 80) := by
  refine ⟨?_, ?_, pyMaxBy_first_argmax, ?_, ?_⟩
  · intro all_nodes fuel node st htype hmemo hch
    simp [calcNodeEV, hmemo, htype, hch]
  · intro all_nodes fuel node st c rest v vs st1 st2 htype hmemo hch hc hrest
    refine ⟨vs.foldl max v - node.cost.getD 0,
      pushResult st2 node.id (vs.foldl max v - node.cost.getD 0) "decision", ?_, ?_, ?_⟩
    · simp [calcNodeEV, hmemo, htype, hch, hc, hrest]
    · rw [sub_add_cancel]
      exact foldl_max_mem v vs
    · rw [sub_add_cancel]
      exact le_foldl_max v vs
  · norm_num [calculate_expected_value, calculate_expected_value_fuel,
      validate_tree_structure, treeB, mkNode, nodeIssues, nodeWarnings,
      groupIssues, groupScan, orphanIssues, childrenOf, is_choice_node,
      is_uncertain_event, List.filter, List.find?, calcNodeEV, evalList,
      choiceList, getKey, setKey, pushResult, contribution]
    all_goals try simp
    all_goals try norm_num
  · norm_num [get_optimal_path, calculate_expected_value,
      calculate_expected_value_fuel, validate_tree_structure, treeB, mkNode,
      nodeIssues, nodeWarnings, groupIssues, groupScan, orphanIssues,
      childrenOf, is_choice_node, is_uncertain_event, List.filter,
      List.find?, calcNodeEV, evalList, choiceList, getKey, setKey,
      pushResult, contribution, build_path, appendStep, pyMaxBy]
    all_goals try simp
    all_goals try norm_num
    all_goals try simp
    all_goals try norm_num

/-- Claim C6, witness: the decision rules applied to the root of `treeB`
with the empty memo — its expected value 80 satisfies the max
characterization over the child values 50 and 80. -/
theorem C6_witness :
    calcNodeEV [mkNode 0 none "decision" "Solo" none (some 2) none] 1
      (mkNode 0 none "decision" "Solo" none (some 2) none) ⟨[], []⟩ =
      some (-(2 : ℚ), pushResult ⟨[], []⟩ 0 (-(2 : ℚ)) "decision") ∧
    (80 : ℚ) + (mkNode 0 none "decision" "Decision" none (some 0) none).cost.getD 0
      ∈ [(50 : ℚ), 80] ∧
    (50 : ℚ) ≤ 80 + (mkNode 0 none "decision" "Decision" none (some 0) none).cost.getD 0 := by
  have hsolo := C6_decision_ev.1 [mkNode 0 none "decision" "Solo" none (some 2) none] 0
    (mkNode 0 none "decision" "Solo" none (some 2) none) ⟨[], []⟩ rfl rfl
    (by norm_num [childrenOf, List.filter])
  have hc : calcNodeEV treeB 1
      (mkNode 1 (some 0) "terminal" "Option A" none (some 0) (some 50)) ⟨[], []⟩ =
      some (50, pushResult ⟨[], []⟩ 1 50 "terminal") := by
    have h := calcNodeEV_terminal treeB 0
      (mkNode 1 (some 0) "terminal" "Option A" none (some 0) (some 50)) ⟨[], []⟩ rfl rfl
    norm_num at h
    exact h
  have hrest : evalList (calcNodeEV treeB 1)
      [mkNode 2 (some 0) "terminal" "Option B" none (some 0) (some 80)]
      (pushResult ⟨[], []⟩ 1 50 "terminal") =
      some ([80], pushResult (pushResult ⟨[], []⟩ 1 50 "terminal") 2 80 "terminal") := by
    have h := calcNodeEV_terminal treeB 0
      (mkNode 2 (some 0) "terminal" "Option B" none (some 0) (some 80))
      (pushResult ⟨[], []⟩ 1 50 "terminal") rfl (by rfl)
    norm_num at h
    simp [evalList, h]
  obtain ⟨ev, st2, heq, hmem, hub⟩ := C6_decision_ev.2.1 treeB 1
    (mkNode 0 none "decision" "Decision" none (some 0) none) ⟨[], []⟩
    (mkNode 1 (some 0) "terminal" "Option A" none (some 0) (some 50))
    [mkNode 2 (some 0) "terminal" "Option B" none (some 0) (some 80)]
    50 [80] (pushResult ⟨[], []⟩ 1 50 "terminal")
    (pushResult (pushResult ⟨[], []⟩ 1 50 "terminal") 2 80 "terminal")
    rfl rfl (by norm_num [childrenOf, treeB, List.filter]; all_goals try simp)
    hc hrest
  have hchB : childrenOf treeB (mkNode 0 none "decision" "Decision" none (some 0) none) =
      [mkNode 1 (some 0) "terminal" "Option A" none (some 0) (some 50),
       mkNode 2 (some 0) "terminal" "Option B" none (some 0) (some 80)] := by
    norm_num [childrenOf, treeB, List.filter]
    all_goals try simp
  have hcomp : calcNodeEV treeB (1 + 1)
      (mkNode 0 none "decision" "Decision" none (some 0) none) ⟨[], []⟩ =
      some (80, pushResult
        (pushResult (pushResult ⟨[], []⟩ 1 50 "terminal") 2 80 "terminal") 0 80 "decision") := by
    rw [calcNodeEV.eq_2]
    norm_num [hchB, hc, hrest, getKey, List.find?, List.foldl, max_def]
    all_goals try simp [hc, hrest, List.foldl, max_def]
    all_goals try norm_num
  rw [hcomp] at heq
  injection heq with heq
  injection heq with hev hst
  rw [← hev] at hmem hub
  exact ⟨by simpa using hsolo, hmem, hub 50 (List.mem_cons_self _ _)⟩

/-! ## Claim C1 -/

/-- Claim C1, counterexample to the claim as stated: the chance root of
scenario C is *not* classified as a choice node (classification requires a
parent that is a decision node), and on the scenario-C snapshot
`calculate_expected_value` returns a validation failure (the root, being
an uncertain event, lacks a probability) instead of
`root_expected_value == 40`. -/
theorem C1_counterexample :
    is_choice_node (mkNode 0 none "chance" "Root" none (some 0) none) treeC = false ∧
    calculate_expected_value treeC =
      some (CalcResult.error "Tree validation failed"
        (some [Issue.uncertainMissingProbability "Root"])) := by
  constructor
  · decide
  · have hval : validate_tree_structure treeC =
        { valid := false, issues := [Issue.uncertainMissingProbability "Root"],
          warnings := [], node_count := 5, root_count := 1 } := by
      norm_num [validate_tree_structure, treeC, mkNode, nodeIssues,
        nodeWarnings, groupIssues, groupScan, orphanIssues, childrenOf,
        is_choice_node, is_uncertain_event, List.filter, List.find?]
      simp
    have h := invalid_short_circuit treeC (by decide) (by rw [hval])
    rw [hval] at h
    exact h.1

set_option maxHeartbeats 2000000 in
/-- The amended scenario C passes validation. -/
theorem validate_treeCfixed :
    validate_tree_structure treeCfixed =
      { valid := true, issues := [], warnings := [],
        node_count := 6, root_count := 1 } := by
  norm_num [validate_tree_structure, treeCfixed, mkNode, nodeIssues,
    nodeWarnings, groupIssues, groupScan, orphanIssues, childrenOf,
    is_choice_node, is_uncertain_event, List.filter, List.find?]
  all_goals try simp
  all_goals try norm_num

set_option maxHeartbeats 2000000 in
/-- The amended scenario C evaluates to a root expected value of 40. -/
theorem calculate_treeCfixed :
    calculate_expected_value treeCfixed =
      some (CalcResult.ok 40 [(3, 100), (1, 100), (4, 0), (2, 0), (0, 40), (9, 40)]
        [(3, "terminal"), (1, "chance_uncertain"), (4, "terminal"),
         (2, "chance_uncertain"), (0, "chance_choice"), (9, "decision")] 9) := by
  have hchD : childrenOf treeCfixed (mkNode 9 none "decision" "Decide" none (some 0) none) =
      [mkNode 0 (some 9) "chance" "Root" none (some 0) none] := by
    norm_num [childrenOf, treeCfixed, List.filter]
    all_goals try simp
    all_goals try norm_num
  have hchR : childrenOf treeCfixed (mkNode 0 (some 9) "chance" "Root" none (some 0) none) =
      [mkNode 1 (some 0) "chance" "U1" (some (2/5)) (some 0) none,
       mkNode 2 (some 0) "chance" "U2" (some (3/5)) (some 0) none] := by
    norm_num [childrenOf, treeCfixed, List.filter]
    all_goals try simp
    all_goals try norm_num
  have hchU1 : childrenOf treeCfixed (mkNode 1 (some 0) "chance" "U1" (some (2/5)) (some 0) none) =
      [mkNode 3 (some 1) "terminal" "T1" none (some 0) (some 100)] := by
    norm_num [childrenOf, treeCfixed, List.filter]
    all_goals try simp
    all_goals try norm_num
  have hchU2 : childrenOf treeCfixed (mkNode 2 (some 0) "chance" "U2" (some (3/5)) (some 0) none) =
      [mkNode 4 (some 2) "terminal" "T2" none (some 0) (some 0)] := by
    norm_num [childrenOf, treeCfixed, List.filter]
    all_goals try simp
    all_goals try norm_num
  have hicR : is_choice_node (mkNode 0 (some 9) "chance" "Root" none (some 0) none)
      treeCfixed = true := by decide
  have hicU1 : is_choice_node (mkNode 1 (some 0) "chance" "U1" (some (2/5)) (some 0) none)
      treeCfixed = false := by decide
  have hiuU1 : is_uncertain_event (mkNode 1 (some 0) "chance" "U1" (some (2/5)) (some 0) none)
      treeCfixed = true := by decide
  have hicU2 : is_choice_node (mkNode 2 (some 0) "chance" "U2" (some (3/5)) (some 0) none)
      treeCfixed = false := by decide
  have hiuU2 : is_uncertain_event (mkNode 2 (some 0) "chance" "U2" (some (3/5)) (some 0) none)
      treeCfixed = true := by decide
  have hT1 : ∀ fuel, calcNodeEV treeCfixed (fuel + 1)
      (mkNode 3 (some 1) "terminal" "T1" none (some 0) (some 100)) ⟨[], []⟩ =
      some (100, ⟨[(3, 100)], [(3, "terminal")]⟩) := by
    intro fuel
    have h := calcNodeEV_terminal treeCfixed fuel
      (mkNode 3 (some 1) "terminal" "T1" none (some 0) (some 100)) ⟨[], []⟩ rfl rfl
    norm_num [pushResult, setKey] at h
    exact h
  have hU1 : ∀ fuel, calcNodeEV treeCfixed (fuel + 1 + 1)
      (mkNode 1 (some 0) "chance" "U1" (some (2/5)) (some 0) none) ⟨[], []⟩ =
      some (100, ⟨[(3, 100), (1, 100)], [(3, "terminal"), (1, "chance_uncertain")]⟩) := by
    intro fuel
    rw [calcNodeEV.eq_2]
    norm_num [hchU1, hicU1, hiuU1, hT1 fuel, getKey, setKey, pushResult, List.find?]
    all_goals try simp [hT1 fuel, setKey]
    all_goals try norm_num
  have hT2 : ∀ fuel, calcNodeEV treeCfixed (fuel + 1)
      (mkNode 4 (some 2) "terminal" "T2" none (some 0) (some 0))
      ⟨[(3, 100), (1, 100)], [(3, "terminal"), (1, "chance_uncertain")]⟩ =
      some (0, ⟨[(3, 100), (1, 100), (4, 0)],
        [(3, "terminal"), (1, "chance_uncertain"), (4, "terminal")]⟩) := by
    intro fuel
    have h := calcNodeEV_terminal treeCfixed fuel
      (mkNode 4 (some 2) "terminal" "T2" none (some 0) (some 0))
      ⟨[(3, 100), (1, 100)], [(3, "terminal"), (1, "chance_uncertain")]⟩ rfl (by rfl)
    norm_num [pushResult, setKey, getKey, List.find?] at h
    exact h
  have hU2 : ∀ fuel, calcNodeEV treeCfixed (fuel + 1 + 1)
      (mkNode 2 (some 0) "chance" "U2" (some (3/5)) (some 0) none)
      ⟨[(3, 100), (1, 100)], [(3, "terminal"), (1, "chance_uncertain")]⟩ =
      some (0, ⟨[(3, 100), (1, 100), (4, 0), (2, 0)],
        [(3, "terminal"), (1, "chance_uncertain"), (4, "terminal"),
         (2, "chance_uncertain")]⟩) := by
    intro fuel
    rw [calcNodeEV.eq_2]
    norm_num [hchU2, hicU2, hiuU2, hT2 fuel, getKey, setKey, pushResult, List.find?]
    all_goals try simp [hT2 fuel, setKey]
    all_goals try norm_num
  have hR : ∀ fuel, calcNodeEV treeCfixed (fuel + 1 + 1 + 1)
      (mkNode 0 (some 9) "chance" "Root" none (some 0) none) ⟨[], []⟩ =
      some (40, ⟨[(3, 100), (1, 100), (4, 0), (2, 0), (0, 40)],
        [(3, "terminal"), (1, "chance_uncertain"), (4, "terminal"),
         (2, "chance_uncertain"), (0, "chance_choice")]⟩) := by
    intro fuel
    rw [calcNodeEV.eq_2]
    norm_num [hchR, hicR, hU1 fuel, hU2 fuel, getKey, setKey, pushResult,
      List.find?, choiceList, contribution, hiuU1, hiuU2]
    all_goals try simp [hU1 fuel, hU2 fuel, choiceList, contribution,
      hiuU1, hiuU2, setKey]
    all_goals try norm_num
  have hD : ∀ fuel, calcNodeEV treeCfixed (fuel + 1 + 1 + 1 + 1)
      (mkNode 9 none "decision" "Decide" none (some 0) none) ⟨[], []⟩ =
      some (40, ⟨[(3, 100), (1, 100), (4, 0), (2, 0), (0, 40), (9, 40)],
        [(3, "terminal"), (1, "chance_uncertain"), (4, "terminal"),
         (2, "chance_uncertain"), (0, "chance_choice"), (9, "decision")]⟩) := by
    intro fuel
    rw [calcNodeEV.eq_2]
    norm_num [hchD, hR fuel, getKey, setKey, pushResult, List.find?, evalList]
    all_goals try simp [hR fuel, evalList, setKey]
    all_goals try norm_num
  have hfinal : calcNodeEV treeCfixed (treeCfixed.length + 1)
      (mkNode 9 none "decision" "Decide" none (some 0) none) ⟨[], []⟩ =
      some (40, ⟨[(3, 100), (1, 100), (4, 0), (2, 0), (0, 40), (9, 40)],
        [(3, "terminal"), (1, "chance_uncertain"), (4, "terminal"),
         (2, "chance_uncertain"), (0, "chance_choice"), (9, "decision")]⟩) := hD 3
  have hroots : treeCfixed.filter (fun n => n.parent_node_id.isNone) =
      [mkNode 9 none "decision" "Decide" none (some 0) none] := by
    norm_num [treeCfixed, List.filter]
    all_goals try simp
    all_goals try norm_num
  have hemp : treeCfixed.isEmpty = false := rfl
  simp only [calculate_expected_value, calculate_expected_value_fuel,
    validate_treeCfixed, hroots, hfinal, hemp]
  simp

set_option maxHeartbeats 2000000 in
/-- Claim C1 (amended; details in the conjuncts): choice classification
requires a decision-node parent, a root chance node is an uncertain event,
choice nodes combine children by weighted/direct contributions minus cost,
and the scenario-C structure under a decision root evaluates to 40. -/
theorem C1_choice_classification_and_ev :
    (∀ node all_nodes, is_choice_node node all_nodes = true ↔
      node.node_type = "chance" ∧ ∃ parent,
        all_nodes.find? (fun n => some n.id == node.parent_node_id) = some parent ∧
        parent.node_type = "decision") ∧
    (∀ node all_nodes, node.parent_node_id = none →
      is_choice_node node all_nodes = false) ∧
    (∀ all_nodes fuel node st c rest vs st2, node.node_type = "chance" →
      is_choice_node node all_nodes = true →
      getKey st.evs node.id = none → childrenOf all_nodes node = c :: rest →
      evalList (calcNodeEV all_nodes fuel) (c :: rest) st = some (vs, st2) →
      calcNodeEV all_nodes (fuel + 1) node st =
        some (weightedSum all_nodes (c :: rest) vs - node.cost.getD 0,
          pushResult st2 node.id
            (weightedSum all_nodes (c :: rest) vs - node.cost.getD 0) "chance_choice")) ∧
    calculate_expected_value treeCfixed =
      some (CalcResult.ok 40 [(3, 100), (1, 100), (4, 0), (2, 0), (0, 40), (9, 40)]
        [(3, "terminal"), (1, "chance_uncertain"), (4, "terminal"),
         (2, "chance_uncertain"), (0, "chance_choice"), (9, "decision")] 9) := by
  refine ⟨?_, ?_, ?_, ?_⟩
  · intro node all_nodes
    unfold is_choice_node
    by_cases hcond : node.node_type ≠ "chance" ∨ node.parent_node_id.isNone
    · rw [if_pos hcond]
      simp only [Bool.false_eq_true, false_iff]
      rintro ⟨htype, parent, hfind, hdec⟩
      rcases hcond with hne | hnone
      · exact hne htype
      · have : ∀ x ∈ all_nodes, ¬ (some x.id == node.parent_node_id) = true := by
          intro x hx
          simp [Option.isNone_iff_eq_none.mp hnone]
        rw [List.find?_eq_none.mpr this] at hfind
        exact Option.noConfusion hfind
    · rw [if_neg hcond]
      push_neg at hcond
      obtain ⟨htype, -⟩ := hcond
      cases hfind : all_nodes.find? (fun n => some n.id == node.parent_node_id) with
      | none =>
        simp only [Bool.false_eq_true, false_iff]
        rintro ⟨-, parent, hfind2, -⟩
        exact Option.noConfusion hfind2
      | some p =>
        constructor
        · intro hbeq
          exact ⟨htype, p, rfl, by simpa using hbeq⟩
        · rintro ⟨-, parent, hfind2, hdec⟩
          injection hfind2 with hpe
          subst hpe
          simpa using hdec
  · intro node all_nodes hnone
    unfold is_choice_node
    rw [if_pos (Or.inr (by simp [hnone]))]
  · intro all_nodes fuel node st c rest vs st2 htype hchoice hmemo hch hev
    have hcl := choiceList_eq_evalList all_nodes (calcNodeEV all_nodes fuel) (c :: rest) st 0
    rw [hev, Option.map_some'] at hcl
    simp only [zero_add] at hcl
    simp only [calcNodeEV, hmemo, htype, hchoice, hch]
    simp [hcl]
  · exact calculate_treeCfixed

/-- Claim C1, witness: the classification rule applied to the choice node
of `treeCfixed` (parent is the decision root) and to the chance root of
scenario C (no parent, hence not a choice node). -/
theorem C1_witness :
    is_choice_node (mkNode 0 (some 9) "chance" "Root" none (some 0) none)
      treeCfixed = true ∧
    is_choice_node (mkNode 0 none "chance" "Root" none (some 0) none) treeC = false := by
  constructor
  · exact (C1_choice_classification_and_ev.1 _ _).mpr
      ⟨rfl, mkNode 9 none "decision" "Decide" none (some 0) none, rfl, rfl⟩
  · exact C1_choice_classification_and_ev.2.1 _ _ rfl

/-! ## Claim C9 -/

/-- Claim C9: with unique node ids (the data model's primary-key
invariant), `calculate_expected_value` terminates on every snapshot,
including one whose parent relation contains a cycle: evaluation starts at
the first root, nodes on parent cycles are unreachable from any root, and
the recursion depth is bounded by the node count, so the fuel
`length + 1` (modelling the call stack) never runs out. -/
theorem C9_evaluation_terminates (nodes : List TreeNode) (hnodup : NodupIds nodes) :
    (calculate_expected_value nodes).isSome := by
  unfold calculate_expected_value calculate_expected_value_fuel
  by_cases hemp : nodes.isEmpty = true
  · simp [hemp]
  · simp only [hemp, Bool.false_eq_true, if_false]
    by_cases hval : (validate_tree_structure nodes).valid = true
    · simp only [hval, Bool.not_true, Bool.false_eq_true, if_false]
      cases hr : nodes.filter (fun n => n.parent_node_id.isNone) with
      | nil => simp
      | cons root rest =>
        have hmem0 : root ∈ nodes.filter (fun n => n.parent_node_id.isNone) := by
          rw [hr]
          exact List.mem_cons_self _ _
        have hmem : root ∈ nodes := (List.mem_filter.mp hmem0).1
        have hpar : root.parent_node_id = none := by
          have h2 := (List.mem_filter.mp hmem0).2
          simpa [Option.isNone_iff_eq_none] using h2
        obtain ⟨⟨v, st⟩, hv⟩ := Option.isSome_iff_exists.mp
          (calcNodeEV_isSome nodes hnodup (nodes.length + 1) [] root
            (Chain.root hmem hpar) (by simp) ⟨[], []⟩)
        simp [hv]
    · simp [hval]

/-- Claim C9, witness: `treeCycle`'s parent relation contains the cycle
between the nodes with ids 1 and 2 (unreachable from the terminal root),
its ids are unique, and evaluation still terminates. -/
theorem C9_witness :
    treeCycle.map (fun n => n.parent_node_id) = [none, some 2, some 1] ∧
    NodupIds treeCycle ∧ (calculate_expected_value treeCycle).isSome :=
  ⟨rfl, by unfold NodupIds; decide,
    C9_evaluation_terminates treeCycle (by unfold NodupIds; decide)⟩

/-! ## Claim C10 -/

/-- Claim C10: when evaluation succeeds, `root_node_id` is the id of the
first root in stored order, every id in `node_expected_values` or
`calculation_breakdown` belongs to a node reachable from that first root,
and under unique ids the other roots' ids (and those of nodes reachable
only from them) are absent from both maps. -/
theorem C10_first_root_only (nodes : List TreeNode) (hnodup : NodupIds nodes)
    (ev : ℚ) (m : List (Nat × ℚ)) (bd : List (Nat × String)) (rid : Nat)
    (hcalc : calculate_expected_value nodes = some (CalcResult.ok ev m bd rid))
    (r0 : TreeNode) (others : List TreeNode)
    (hroots : nodes.filter (fun n => n.parent_node_id.isNone) = r0 :: others) :
    rid = r0.id ∧
    (∀ k, (k ∈ m.map Prod.fst ∨ k ∈ bd.map Prod.fst) →
      ∃ nd ∈ nodes, Reach nodes r0 nd ∧ nd.id = k) ∧
    (∀ r ∈ others, r.id ∉ m.map Prod.fst ∧ r.id ∉ bd.map Prod.fst) := by
  unfold calculate_expected_value calculate_expected_value_fuel at hcalc
  by_cases hemp : nodes.isEmpty = true
  · rw [if_pos hemp] at hcalc
    injection hcalc with hcalc
    exact CalcResult.noConfusion hcalc
  · rw [if_neg hemp] at hcalc
    dsimp only at hcalc
    by_cases hval : (validate_tree_structure nodes).valid = true
    · rw [hval] at hcalc
      simp only [Bool.not_true, Bool.false_eq_true, if_false] at hcalc
      rw [hroots] at hcalc
      dsimp only at hcalc
      have hmem0 : r0 ∈ nodes.filter (fun n => n.parent_node_id.isNone) := by
        rw [hroots]
        exact List.mem_cons_self _ _
      have hmem : r0 ∈ nodes := (List.mem_filter.mp hmem0).1
      cases hev : calcNodeEV nodes (nodes.length + 1) r0 ⟨[], []⟩ with
      | none => rw [hev] at hcalc; exact Option.noConfusion hcalc
      | some p =>
        obtain ⟨v, st⟩ := p
        rw [hev] at hcalc
        dsimp only at hcalc
        injection hcalc with hcalc
        injection hcalc with hv hm hbd hrid
        subst hv hm hbd
        have hkeys : ∀ k, (k ∈ st.evs.map Prod.fst ∨ k ∈ st.bd.map Prod.fst) →
            ∃ nd ∈ nodes, Reach nodes r0 nd ∧ nd.id = k := by
          intro k hk
          rcases calcNodeEV_keys nodes (nodes.length + 1) r0 hmem ⟨[], []⟩ (v, st)
              hev k hk with h2 | h2
          · rcases h2 with h2 | h2 <;> simp at h2
          · exact h2
        refine ⟨hrid.symm, hkeys, ?_⟩
        intro r hr
        have hrmem0 : r ∈ nodes.filter (fun n => n.parent_node_id.isNone) := by
          rw [hroots]
          exact List.mem_cons_of_mem _ hr
        have hrmem : r ∈ nodes := (List.mem_filter.mp hrmem0).1
        have hrpar : r.parent_node_id = none := by
          have h2 := (List.mem_filter.mp hrmem0).2
          simpa [Option.isNone_iff_eq_none] using h2
        have habs : r.id ∈ st.evs.map Prod.fst ∨ r.id ∈ st.bd.map Prod.fst → False := by
          intro hk
          obtain ⟨nd, hndmem, hreach, hndid⟩ := hkeys r.id hk
          have hnd : nd = r := eq_of_mem_of_id_eq hnodup hndmem hrmem hndid
          subst hnd
          have hr0 : nd = r0 := reach_eq_of_no_parent hreach hrpar
          have hnodes : nodes.Nodup := (List.Nodup.of_map _ hnodup)
          have hfil : (nodes.filter (fun n => n.parent_node_id.isNone)).Nodup :=
            hnodes.filter _
          rw [hroots] at hfil
          rw [List.nodup_cons] at hfil
          exact hfil.1 (hr0 ▸ hr)
        exact ⟨fun hk => habs (Or.inl hk), fun hk => habs (Or.inr hk)⟩
    · simp only [hval] at hcalc
      simp only [Bool.not_false, if_true] at hcalc
      injection hcalc with hcalc
      exact CalcResult.noConfusion hcalc

set_option maxHeartbeats 2000000 in
/-- Claim C10, witness: the two-root snapshot `treeTwoRoots` evaluates
only the first root (id 0); the second root's id 1 and its child's id 2
are absent from both result maps. -/
theorem C10_witness :
    calculate_expected_value treeTwoRoots =
      some (CalcResult.ok 5 [(0, 5)] [(0, "terminal")] 0) ∧
    (1 : Nat) ∉ ([((0 : Nat), (5 : ℚ))].map Prod.fst) ∧
    (1 : Nat) ∉ ([((0 : Nat), "terminal")].map Prod.fst) := by
  have hcalc : calculate_expected_value treeTwoRoots =
      some (CalcResult.ok 5 [(0, 5)] [(0, "terminal")] 0) := by
    norm_num [calculate_expected_value, calculate_expected_value_fuel,
      validate_tree_structure, treeTwoRoots, nodeIssues, nodeWarnings,
      groupIssues, groupScan, orphanIssues, childrenOf, is_choice_node,
      is_uncertain_event, List.filter, List.find?, calcNodeEV, evalList,
      choiceList, getKey, setKey, pushResult, contribution]
    all_goals try simp
    all_goals try norm_num
  have hroots : treeTwoRoots.filter (fun n => n.parent_node_id.isNone) =
      (mkNode 0 none "terminal" "R1" none (some 0) (some 5)) ::
        [mkNode 1 none "terminal" "R2" none (some 0) (some 7)] := by
    norm_num [treeTwoRoots, List.filter]
    all_goals try simp
  have h := C10_first_root_only treeTwoRoots (by unfold NodupIds; decide) 5
    [(0, 5)] [(0, "terminal")] 0
    hcalc (mkNode 0 none "terminal" "R1" none (some 0) (some 5))
    [mkNode 1 none "terminal" "R2" none (some 0) (some 7)] hroots
  have h2 := h.2.2 (mkNode 1 none "terminal" "R2" none (some 0) (some 7))
    (List.mem_singleton.mpr rfl)
  exact ⟨hcalc, h2.1, h2.2⟩

end DecisionTree
